import Mathlib

/-!
A verification development for the GoSeC PKI tool.

The repository issues a certificate hierarchy (root CA, subordinate CAs,
leaf certificates) and protects every CA private key with Shamir threshold
secret sharing: a generated key is marshalled, split into `n` shares with
threshold `t`, each share is base64-encoded and written to its own file,
and the key is reconstructed transiently from `t` share files when a
subordinate certificate has to be signed.

The development embeds:
  * the byte field GF(2^8) and the Shamir split/combine algorithm
    (the engine itself is the external `github.com/hashicorp/vault/shamir`
    dependency, so it is modelled from §4.1 of the specification);
  * base64 encoding and decoding of share files;
  * the helper functions of `internal/utils/utils.go` (subject building,
    certificate-template construction, share splitting and writing, share
    combining, comma-separated path parsing) over an explicit file-system
    model;
  * the control flow of the three CLI commands (`create-root`,
    `create-subca`, `sign`) and of the three GUI tabs, with external
    crypto primitives (ECDSA key generation, DER/PEM encoding and parsing)
    supplied as oracles, and with an event trace recording key generation,
    template construction and file writes.
-/

deriving instance DecidableEq for Except

namespace GoSeC

/-! ## The byte field GF(2^8)

Modelled from the spec: the secret-sharing engine "operates over the finite
field GF(2^8) ... represented as polynomial coefficients modulo an
irreducible degree-8 polynomial. All arithmetic (add, multiply,
multiplicative inverse) operates on 8-bit values; addition is bitwise
exclusive-or."  We use the AES reduction polynomial
x^8 + x^4 + x^3 + x + 1 (as a bit pattern, the number 283), the one the
external engine uses. -/

/-- Carry-less doubling of a byte followed by reduction modulo
x^8 + x^4 + x^3 + x + 1 (bit pattern 283). -/
def xtime (a : Nat) : Nat := if a < 128 then 2 * a else (2 * a) ^^^ 283

/-- Russian-peasant multiplication in GF(2^8): `k` bits of `b` remain. -/
def mulAux : Nat → Nat → Nat → Nat
  | 0, _, _ => 0
  | k + 1, a, b => (if b % 2 = 1 then a else 0) ^^^ mulAux k (xtime a) (b / 2)

/-- Multiplication of two bytes in GF(2^8). -/
def gmulNat (a b : Nat) : Nat := mulAux 8 a b

set_option maxRecDepth 4000 in
theorem xtime_lt {a : Nat} (h : a < 256) : xtime a < 256 := by
  have hall : ∀ x : Fin 256, xtime x.val < 256 := by decide
  exact hall ⟨a, h⟩

theorem xor_lt_256 {a b : Nat} (ha : a < 256) (hb : b < 256) : a ^^^ b < 256 := by
  have h8 : (256 : Nat) = 2 ^ 8 := by norm_num
  rw [h8] at ha hb ⊢
  exact Nat.xor_lt_two_pow ha hb

theorem mulAux_lt (k : Nat) : ∀ a b : Nat, a < 256 → mulAux k a b < 256 := by
  induction k with
  | zero => intro a b _; simp [mulAux]
  | succ k ih =>
    intro a b ha
    have h1 : (if b % 2 = 1 then a else 0) < 256 := by
      split
      · exact ha
      · norm_num
    exact xor_lt_256 h1 (ih (xtime a) (b / 2) (xtime_lt ha))

theorem gmulNat_lt {a b : Nat} (ha : a < 256) : gmulNat a b < 256 :=
  mulAux_lt 8 a b ha

/-- An element of the byte field GF(2^8). -/
structure GF where
  val : Fin 256
deriving DecidableEq

instance : Zero GF := ⟨⟨0⟩⟩
instance : One GF := ⟨⟨1⟩⟩
instance : Add GF := ⟨fun a b => ⟨⟨a.val.val ^^^ b.val.val, xor_lt_256 a.val.isLt b.val.isLt⟩⟩⟩
instance : Mul GF := ⟨fun a b => ⟨⟨gmulNat a.val.val b.val.val, gmulNat_lt a.val.isLt⟩⟩⟩
instance : Neg GF := ⟨fun a => a⟩

/-- Binary exponentiation in GF(2^8) with explicit fuel (kept structural so
the kernel can evaluate it). -/
def gpowAux : Nat → GF → Nat → GF
  | 0, _, _ => 1
  | fuel + 1, a, n =>
    if n = 0 then 1
    else
      let h := gpowAux fuel a (n / 2)
      if n % 2 = 0 then h * h else h * h * a

/-- The multiplicative inverse a^254 (Fermat: the multiplicative group of
GF(2^8) has order 255); 0 maps to 0. -/
def GF.inv (a : GF) : GF := gpowAux 8 a 254

instance : Inv GF := ⟨GF.inv⟩

theorem GF.val_add (a b : GF) : (a + b).val.val = a.val.val ^^^ b.val.val := rfl

theorem GF.val_mul (a b : GF) : (a * b).val.val = gmulNat a.val.val b.val.val := rfl

theorem GF.ext_val {a b : GF} (h : a.val.val = b.val.val) : a = b := by
  cases a with
  | mk av =>
    cases b with
    | mk bv =>
      cases av; cases bv
      simp only at h
      simp [h]

/-! ### Bridging GF(2^8) to the quotient ring (ZMod 2)[X] / (x^8+x^4+x^3+x+1)

The bit pattern of a natural number is read as a polynomial over GF(2);
xor becomes polynomial addition and `gmulNat` becomes multiplication in the
quotient ring.  The ring axioms of GF(2^8) are transported back along the
injective encoding. -/

/-- The bits of a natural number as a polynomial over GF(2). -/
noncomputable def toPoly : Nat → Polynomial (ZMod 2)
  | 0 => 0
  | n + 1 =>
    Polynomial.C (((n + 1) % 2 : Nat) : ZMod 2) + Polynomial.X * toPoly ((n + 1) / 2)
decreasing_by exact Nat.div_lt_self (Nat.succ_pos n) one_lt_two

theorem toPoly_zero : toPoly 0 = 0 := by simp [toPoly]

theorem toPoly_eq (n : Nat) :
    toPoly n = Polynomial.C ((n % 2 : Nat) : ZMod 2) + Polynomial.X * toPoly (n / 2) := by
  cases n with
  | zero => simp [toPoly]
  | succ m => rw [toPoly]

theorem toPoly_coeff (n : Nat) :
    ∀ k, (toPoly n).coeff k = if n.testBit k then 1 else 0 := by
  induction n using Nat.strong_induction_on with
  | _ n ih =>
    intro k
    rcases Nat.eq_zero_or_pos n with hn | hn
    · subst hn; simp [toPoly, Nat.zero_testBit]
    · rw [toPoly_eq]
      cases k with
      | zero =>
        rw [Polynomial.coeff_add, Polynomial.coeff_C_zero, Polynomial.mul_coeff_zero,
          Polynomial.coeff_X_zero, zero_mul, add_zero, Nat.testBit_zero]
        rcases Nat.mod_two_eq_zero_or_one n with h | h <;> simp [h]
      | succ k =>
        rw [Polynomial.coeff_add, Polynomial.coeff_C, Polynomial.coeff_X_mul,
          ih (n / 2) (Nat.div_lt_self hn one_lt_two) k, Nat.testBit_add_one]
        simp

theorem toPoly_xor (a b : Nat) : toPoly (a ^^^ b) = toPoly a + toPoly b := by
  apply Polynomial.ext
  intro k
  rw [Polynomial.coeff_add, toPoly_coeff, toPoly_coeff, toPoly_coeff, Nat.testBit_xor]
  cases ha : a.testBit k <;> cases hb : b.testBit k <;> simp <;> decide

theorem toPoly_two_mul (a : Nat) : toPoly (2 * a) = Polynomial.X * toPoly a := by
  have h1 : 2 * a % 2 = 0 := by omega
  have h2 : 2 * a / 2 = a := by omega
  rw [toPoly_eq (2 * a), h1, h2]
  simp

theorem toPoly_injective : Function.Injective toPoly := by
  intro a b h
  apply Nat.eq_of_testBit_eq
  intro i
  have hc := congrArg (fun p => Polynomial.coeff p i) h
  simp only [toPoly_coeff] at hc
  cases ha : a.testBit i <;> cases hb : b.testBit i <;> rw [ha, hb] at hc <;>
    first
    | rfl
    | exact absurd hc (by decide)

theorem toPoly_degree_lt {n k : Nat} (h : n < 2 ^ k) : (toPoly n).degree < (k : Nat) := by
  rw [Polynomial.degree_lt_iff_coeff_zero]
  intro m hm
  have hbit : n.testBit m = false :=
    Nat.testBit_lt_two_pow (lt_of_lt_of_le h (Nat.pow_le_pow_right (by norm_num) hm))
  rw [toPoly_coeff, hbit]
  simp

/-- The AES modulus x^8 + x^4 + x^3 + x + 1 as a polynomial over GF(2). -/
noncomputable def mPoly : Polynomial (ZMod 2) := toPoly 283

/-- The quotient ring (ZMod 2)[X] / (mPoly), an algebraic proxy for GF(2^8). -/
abbrev GFQ : Type := Polynomial (ZMod 2) ⧸ Ideal.span {mPoly}

noncomputable def qmk : Polynomial (ZMod 2) →+* GFQ := Ideal.Quotient.mk _

/-- The byte-to-quotient encoding used to transport ring axioms. -/
noncomputable def phi (n : Nat) : GFQ := qmk (toPoly n)

theorem qmk_mPoly : qmk mPoly = 0 := by
  rw [qmk, Ideal.Quotient.eq_zero_iff_mem]
  exact Ideal.subset_span (Set.mem_singleton _)

theorem phi_xor (a b : Nat) : phi (a ^^^ b) = phi a + phi b := by
  rw [phi, phi, phi, toPoly_xor, map_add]

theorem phi_zero : phi 0 = 0 := by rw [phi, toPoly_zero, map_zero]

theorem toPoly_one : toPoly 1 = 1 := by
  rw [toPoly_eq]
  norm_num [toPoly_zero]

theorem phi_one : phi 1 = 1 := by rw [phi, toPoly_one, map_one]

theorem phi_xtime {a : Nat} (h : a < 256) : phi (xtime a) = qmk Polynomial.X * phi a := by
  rw [xtime]
  split
  · rw [phi, toPoly_two_mul, map_mul]; rfl
  · rw [phi, toPoly_xor, map_add, toPoly_two_mul, map_mul,
      show toPoly 283 = mPoly from rfl, qmk_mPoly, add_zero]
    rfl

theorem phi_mulAux : ∀ k a b, a < 256 → b < 2 ^ k → phi (mulAux k a b) = phi a * phi b := by
  intro k
  induction k with
  | zero =>
    intro a b _ hb
    have hb0 : b = 0 := Nat.lt_one_iff.mp (by simpa using hb)
    subst hb0
    rw [show mulAux 0 a 0 = 0 from rfl, phi_zero, mul_zero]
  | succ k ih =>
    intro a b ha hb
    have hdiv : b / 2 < 2 ^ k := by
      rw [Nat.div_lt_iff_lt_mul (by norm_num)]
      calc b < 2 ^ (k + 1) := hb
        _ = 2 ^ k * 2 := by rw [pow_succ]
    have hb' : phi b = qmk (Polynomial.C ((b % 2 : Nat) : ZMod 2))
        + qmk Polynomial.X * phi (b / 2) := by
      rw [phi, toPoly_eq b, map_add, map_mul]; rfl
    rw [show mulAux (k + 1) a b
          = (if b % 2 = 1 then a else 0) ^^^ mulAux k (xtime a) (b / 2) from rfl,
      phi_xor, ih (xtime a) (b / 2) (xtime_lt ha) hdiv, phi_xtime ha, hb']
    rcases Nat.mod_two_eq_zero_or_one b with h | h <;> rw [h] <;> simp [phi_zero] <;> ring

theorem phi_gmulNat {a b : Nat} (ha : a < 256) (hb : b < 256) :
    phi (gmulNat a b) = phi a * phi b :=
  phi_mulAux 8 a b ha (by norm_num; exact hb)

theorem mPoly_degree_ge : (8 : Nat) ≤ mPoly.degree := by
  apply Polynomial.le_degree_of_ne_zero
  rw [mPoly, toPoly_coeff, show Nat.testBit 283 8 = true from by decide]
  simp

theorem phi_inj {a b : Nat} (ha : a < 256) (hb : b < 256) (h : phi a = phi b) : a = b := by
  rw [phi, phi, qmk, Ideal.Quotient.eq, Ideal.mem_span_singleton,
    CharTwo.sub_eq_add, ← toPoly_xor] at h
  have hxor : a ^^^ b < 2 ^ 8 := by
    have := xor_lt_256 ha hb
    norm_num
    exact this
  have hdeg : (toPoly (a ^^^ b)).degree < mPoly.degree :=
    lt_of_lt_of_le (toPoly_degree_lt hxor) mPoly_degree_ge
  have h0 : toPoly (a ^^^ b) = 0 := Polynomial.eq_zero_of_dvd_of_degree_lt h hdeg
  have hz : a ^^^ b = 0 := toPoly_injective (h0.trans toPoly_zero.symm)
  have := congrArg (fun x => x ^^^ b) hz
  simpa [Nat.xor_assoc, Nat.xor_self, Nat.xor_zero, Nat.zero_xor] using this

/-- The encoding into the quotient ring, at the level of GF. -/
noncomputable def Phi (a : GF) : GFQ := phi a.val.val

theorem Phi_inj {a b : GF} (h : Phi a = Phi b) : a = b :=
  GF.ext_val (phi_inj a.val.isLt b.val.isLt h)

theorem Phi_add (a b : GF) : Phi (a + b) = Phi a + Phi b := by
  rw [Phi, GF.val_add, phi_xor]; rfl

theorem Phi_mul (a b : GF) : Phi (a * b) = Phi a * Phi b := by
  rw [Phi, GF.val_mul, phi_gmulNat a.val.isLt b.val.isLt]; rfl

theorem Phi_zero : Phi 0 = 0 := by
  rw [Phi, show (0 : GF).val.val = 0 from rfl, phi_zero]

theorem Phi_one : Phi 1 = 1 := by
  rw [Phi, show (1 : GF).val.val = 1 from rfl, phi_one]

instance : Fintype GF :=
  Fintype.ofEquiv (Fin 256) ⟨GF.mk, GF.val, fun _ => rfl, fun _ => rfl⟩

theorem gf_add_assoc (a b c : GF) : a + b + c = a + (b + c) := GF.ext_val (by
  rw [GF.val_add, GF.val_add, GF.val_add, GF.val_add, Nat.xor_assoc])

theorem gf_zero_add (a : GF) : 0 + a = a := GF.ext_val (by
  rw [GF.val_add, show (0 : GF).val.val = 0 from rfl, Nat.zero_xor])

theorem gf_add_zero (a : GF) : a + 0 = a := GF.ext_val (by
  rw [GF.val_add, show (0 : GF).val.val = 0 from rfl, Nat.xor_zero])

theorem gf_add_comm (a b : GF) : a + b = b + a := GF.ext_val (by
  rw [GF.val_add, GF.val_add, Nat.xor_comm])

theorem gf_neg_add_cancel (a : GF) : -a + a = 0 := GF.ext_val (by
  rw [show (-a + a).val.val = a.val.val ^^^ a.val.val from rfl, Nat.xor_self]; rfl)

theorem gf_mul_assoc (a b c : GF) : a * b * c = a * (b * c) := Phi_inj (by
  rw [Phi_mul, Phi_mul, Phi_mul, Phi_mul, mul_assoc])

theorem gf_one_mul (a : GF) : 1 * a = a := Phi_inj (by rw [Phi_mul, Phi_one, one_mul])

theorem gf_mul_one (a : GF) : a * 1 = a := Phi_inj (by rw [Phi_mul, Phi_one, mul_one])

theorem gf_left_distrib (a b c : GF) : a * (b + c) = a * b + a * c := Phi_inj (by
  rw [Phi_mul, Phi_add, Phi_add, Phi_mul, Phi_mul, left_distrib])

theorem gf_right_distrib (a b c : GF) : (a + b) * c = a * c + b * c := Phi_inj (by
  rw [Phi_mul, Phi_add, Phi_add, Phi_mul, Phi_mul, right_distrib])

theorem gf_zero_mul (a : GF) : 0 * a = 0 := Phi_inj (by rw [Phi_mul, Phi_zero, zero_mul])

theorem gf_mul_zero (a : GF) : a * 0 = 0 := Phi_inj (by rw [Phi_mul, Phi_zero, mul_zero])

theorem gf_mul_comm (a b : GF) : a * b = b * a := Phi_inj (by rw [Phi_mul, Phi_mul, mul_comm])

instance instCommRingGF : CommRing GF where
  add := (· + ·)
  zero := 0
  neg := (- ·)
  mul := (· * ·)
  one := 1
  nsmul := nsmulRec
  zsmul := zsmulRec
  add_assoc := gf_add_assoc
  zero_add := gf_zero_add
  add_zero := gf_add_zero
  add_comm := gf_add_comm
  neg_add_cancel := gf_neg_add_cancel
  mul_assoc := gf_mul_assoc
  one_mul := gf_one_mul
  mul_one := gf_mul_one
  left_distrib := gf_left_distrib
  right_distrib := gf_right_distrib
  zero_mul := gf_zero_mul
  mul_zero := gf_mul_zero
  mul_comm := gf_mul_comm

set_option maxRecDepth 8000 in
set_option maxHeartbeats 1600000 in
instance instFieldGF : Field GF where
  inv := (·⁻¹)
  exists_pair_ne := ⟨0, 1, by decide⟩
  mul_inv_cancel := by decide
  inv_zero := by decide
  nnqsmul := _
  nnqsmul_def := fun _ _ => rfl
  qsmul := _
  qsmul_def := fun _ _ => rfl

/-! ## Polynomials over GF(2^8) and Lagrange interpolation at zero -/

/-- Horner evaluation of a coefficient list (constant term first). -/
def evalPoly (cs : List GF) (x : GF) : GF := cs.foldr (fun c acc => c + x * acc) 0

/-- The same coefficient list read as a Mathlib polynomial. -/
noncomputable def polyOfCoeffs (cs : List GF) : Polynomial GF :=
  cs.foldr (fun c p => Polynomial.C c + Polynomial.X * p) 0

theorem evalPoly_eq (cs : List GF) (x : GF) :
    evalPoly cs x = (polyOfCoeffs cs).eval x := by
  induction cs with
  | nil => simp [evalPoly, polyOfCoeffs]
  | cons c rest ih =>
    rw [show evalPoly (c :: rest) x = c + x * evalPoly rest x from rfl,
      show polyOfCoeffs (c :: rest) = Polynomial.C c + Polynomial.X * polyOfCoeffs rest from rfl,
      Polynomial.eval_add, Polynomial.eval_mul, Polynomial.eval_C, Polynomial.eval_X, ih]

theorem polyOfCoeffs_coeff_ge (cs : List GF) :
    ∀ m, cs.length ≤ m → (polyOfCoeffs cs).coeff m = 0 := by
  induction cs with
  | nil => intro m _; simp [polyOfCoeffs]
  | cons c rest ih =>
    intro m hm
    cases m with
    | zero => exact absurd hm (by simp)
    | succ m =>
      rw [show polyOfCoeffs (c :: rest) = Polynomial.C c + Polynomial.X * polyOfCoeffs rest
          from rfl,
        Polynomial.coeff_add, Polynomial.coeff_C, Polynomial.coeff_X_mul,
        ih m (by simpa using hm)]
      simp

theorem polyOfCoeffs_degree_lt (cs : List GF) :
    (polyOfCoeffs cs).degree < (cs.length : Nat) := by
  rw [Polynomial.degree_lt_iff_coeff_zero]
  exact polyOfCoeffs_coeff_ge cs

theorem polyOfCoeffs_eval_zero (cs : List GF) :
    (polyOfCoeffs cs).eval 0 = cs.headD 0 := by
  cases cs with
  | nil => simp [polyOfCoeffs]
  | cons c rest => simp [polyOfCoeffs]

/-- Lagrange interpolation evaluated at 0: for m points (x j, y j) with
distinct nodes this recovers the constant term of the unique polynomial of
degree below m through them.  This is the per-byte-position reconstruction
step of `Combine` (spec §4.1: "for each byte position, apply Lagrange
interpolation over the supplied points to recover P_i(0)"). -/
def lagrangeAt0 {m : Nat} (x y : Fin m → GF) : GF :=
  ∑ j, y j * ∏ k ∈ Finset.univ.erase j, ((x j - x k)⁻¹ * (0 - x k))

theorem lagrangeAt0_evalPoly {m : Nat} (x : Fin m → GF) (hx : Function.Injective x)
    (cs : List GF) (hlen : cs.length ≤ m) :
    lagrangeAt0 x (fun j => evalPoly cs (x j)) = cs.headD 0 := by
  classical
  have hdeg : (polyOfCoeffs cs).degree < (((Finset.univ : Finset (Fin m)).card : Nat)) := by
    rw [Finset.card_univ, Fintype.card_fin]
    exact lt_of_lt_of_le (polyOfCoeffs_degree_lt cs) (by exact_mod_cast hlen)
  have h := Lagrange.eq_interpolate (s := Finset.univ) (v := x)
      (f := polyOfCoeffs cs) hx.injOn hdeg
  have h0 := congrArg (Polynomial.eval 0) h
  rw [polyOfCoeffs_eval_zero, Lagrange.interpolate_apply, Polynomial.eval_finset_sum] at h0
  rw [lagrangeAt0]
  calc
    ∑ j, evalPoly cs (x j) * ∏ k ∈ Finset.univ.erase j, ((x j - x k)⁻¹ * (0 - x k))
        = ∑ j, Polynomial.eval 0
            (Polynomial.C ((polyOfCoeffs cs).eval (x j)) * Lagrange.basis Finset.univ x j) := by
          apply Finset.sum_congr rfl
          intro j _
          rw [Polynomial.eval_mul, Polynomial.eval_C, evalPoly_eq]
          congr 1
          rw [Lagrange.basis, Polynomial.eval_prod]
          apply Finset.prod_congr rfl
          intro k _
          rw [Lagrange.basisDivisor, Polynomial.eval_mul, Polynomial.eval_C,
            Polynomial.eval_sub, Polynomial.eval_X, Polynomial.eval_C]
    _ = cs.headD 0 := h0.symm

/-! ## The Shamir engine, modelled from the spec

The engine is the external dependency `github.com/hashicorp/vault/shamir`
(README: "Shamir Secret Sharing is via HashiCorp Vault's library"), whose
source is not part of this repository, so `shamirSplit` and `shamirCombine`
are modelled from §4.1 of the specification. -/

/-- A byte as a field element (values are reduced mod 256; callers pass bytes). -/
def ofByte (b : Nat) : GF := ⟨⟨b % 256, Nat.mod_lt b (by norm_num)⟩⟩

theorem ofByte_val {b : Nat} (h : b < 256) : (ofByte b).val.val = b := Nat.mod_eq_of_lt h

theorem ofByte_roundtrip (g : GF) : ofByte g.val.val = g :=
  GF.ext_val (ofByte_val g.val.isLt)

theorem ofByte_injOn {a b : Nat} (ha : a < 256) (hb : b < 256)
    (h : ofByte a = ofByte b) : a = b := by
  have h2 : (ofByte a).val.val = (ofByte b).val.val := congrArg (fun g : GF => g.val.val) h
  rwa [ofByte_val ha, ofByte_val hb] at h2

theorem ofByte_ne_zero {b : Nat} (hb : b < 256) (h : b ≠ 0) : ofByte b ≠ 0 := by
  intro hz
  exact h (ofByte_injOn hb (by norm_num) (hz.trans rfl))

/-- The spec's error taxonomy for the secret-sharing engine (§7). -/
inductive ShamirError
  | invalidParameters
  | malformedShare
  | invalidShareIdentity
  | duplicateShareIdentity
deriving DecidableEq

/-- Modelled from the spec: `Split` of the secret-sharing engine (§4.1).
Constraints 1 ≤ t ≤ n ≤ 255 and a secret of length ≥ 1, otherwise
`InvalidParameters`.  `rand i k` supplies the k-th random coefficient of the
byte-i polynomial (the spec draws them from a secure random source; the
model takes them as an argument).  Share j (j = 0..n-1) has the non-zero
identity byte j+1 followed by the evaluations P_i(j+1). -/
def shamirSplit (secret : List Nat) (n t : Nat) (rand : Nat → Nat → GF) :
    Except ShamirError (List (List Nat)) :=
  if 1 ≤ t ∧ t ≤ n ∧ n ≤ 255 ∧ 1 ≤ secret.length then
    .ok ((List.range n).map (fun j =>
      (j + 1) :: (List.range secret.length).map (fun i =>
        (evalPoly (ofByte (secret.getD i 0) :: (List.range (t - 1)).map (rand i))
          (ofByte (j + 1))).val.val)))
  else .error .invalidParameters

/-- Modelled from the spec: `Combine` of the secret-sharing engine (§4.1).
Requires at least one share, equal share lengths, and pairwise distinct
non-zero identity bytes; reconstructs each secret byte by Lagrange
interpolation at 0. -/
def shamirCombine (blobs : List (List Nat)) : Except ShamirError (List Nat) :=
  match blobs with
  | [] => .error .malformedShare
  | b0 :: rest =>
    if (b0 :: rest).any (fun b => b.length ≠ b0.length) then .error .malformedShare
    else if b0.length < 2 then .error .malformedShare
    else if (b0 :: rest).any (fun b => b.headD 0 = 0) then .error .invalidShareIdentity
    else if ((b0 :: rest).map (fun b => b.headD 0)).Nodup then
      .ok ((List.range (b0.length - 1)).map (fun p =>
        (lagrangeAt0
          (fun j : Fin (b0 :: rest).length => ofByte (((b0 :: rest).get j).headD 0))
          (fun j : Fin (b0 :: rest).length =>
            ofByte (((b0 :: rest).get j).getD (p + 1) 0))).val.val))
    else .error .duplicateShareIdentity

/-- The j-th share (j = 0 .. n-1) a successful split produces: the identity
byte j+1 followed by the byte-wise polynomial evaluations at j+1. -/
def splitShare (secret : List Nat) (t : Nat) (rand : Nat → Nat → GF) (j : Nat) : List Nat :=
  (j + 1) :: (List.range secret.length).map (fun i =>
    (evalPoly (ofByte (secret.getD i 0) :: (List.range (t - 1)).map (rand i))
      (ofByte (j + 1))).val.val)

/-! ## Base64 (Go `encoding/base64`, standard encoding with padding) -/

/-- The base64 alphabet: sextet value to ASCII code. -/
def sextetChar (s : Nat) : Nat :=
  if s < 26 then 65 + s
  else if s < 52 then 71 + s
  else if s < 62 then s - 4
  else if s = 62 then 43
  else 47

/-- ASCII code back to sextet value. -/
def charSextet (c : Nat) : Option Nat :=
  if 65 ≤ c ∧ c ≤ 90 then some (c - 65)
  else if 97 ≤ c ∧ c ≤ 122 then some (c - 71)
  else if 48 ≤ c ∧ c ≤ 57 then some (c + 4)
  else if c = 43 then some 62
  else if c = 47 then some 63
  else none

/-- RFC 4648 base64 of a byte list, as a list of ASCII codes (61 is the pad
character).  Models Go's `base64.StdEncoding.EncodeToString`. -/
def b64Encode : List Nat → List Nat
  | [] => []
  | [b1] => [sextetChar (b1 / 4), sextetChar (b1 % 4 * 16), 61, 61]
  | [b1, b2] => [sextetChar (b1 / 4), sextetChar (b1 % 4 * 16 + b2 / 16),
      sextetChar (b2 % 16 * 4), 61]
  | b1 :: b2 :: b3 :: rest =>
    sextetChar (b1 / 4) :: sextetChar (b1 % 4 * 16 + b2 / 16) ::
      sextetChar (b2 % 16 * 4 + b3 / 64) :: sextetChar (b3 % 64) :: b64Encode rest

/-- Base64 decoding; models Go's `base64.StdEncoding.DecodeString`. -/
def b64Decode : List Nat → Option (List Nat)
  | [] => some []
  | c1 :: c2 :: c3 :: c4 :: rest =>
    match charSextet c1, charSextet c2 with
    | some s1, some s2 =>
      if c3 = 61 then
        if c4 = 61 ∧ rest = [] then some [s1 * 4 + s2 / 16] else none
      else
        match charSextet c3 with
        | some s3 =>
          if c4 = 61 then
            if rest = [] then some [s1 * 4 + s2 / 16, s2 % 16 * 16 + s3 / 4] else none
          else
            match charSextet c4 with
            | some s4 =>
              (b64Decode rest).map
                (fun ds => (s1 * 4 + s2 / 16) :: (s2 % 16 * 16 + s3 / 4) ::
                  (s3 % 4 * 64 + s4) :: ds)
            | none => none
        | none => none
    | _, _ => none
  | _ => none

theorem charSextet_sextetChar {s : Nat} (h : s < 64) :
    charSextet (sextetChar s) = some s := by
  have hall : ∀ x : Fin 64, charSextet (sextetChar x.val) = some x.val := by decide
  exact hall ⟨s, h⟩

theorem sextetChar_ne_61 {s : Nat} (h : s < 64) : sextetChar s ≠ 61 := by
  have hall : ∀ x : Fin 64, sextetChar x.val ≠ 61 := by decide
  exact hall ⟨s, h⟩

theorem b64_roundtrip :
    ∀ l : List Nat, (∀ b ∈ l, b < 256) → b64Decode (b64Encode l) = some l := by
  intro l
  induction l using b64Encode.induct with
  | case1 => intro _; rfl
  | case2 b1 =>
    intro hb
    have h1 : b1 < 256 := hb b1 (by simp)
    have hc1 := charSextet_sextetChar (s := b1 / 4) (by omega)
    have hc2 := charSextet_sextetChar (s := b1 % 4 * 16) (by omega)
    simp only [b64Encode, b64Decode, hc1, hc2]
    simp
    omega
  | case3 b1 b2 =>
    intro hb
    have h1 : b1 < 256 := hb b1 (by simp)
    have h2 : b2 < 256 := hb b2 (by simp)
    have hc1 := charSextet_sextetChar (s := b1 / 4) (by omega)
    have hc2 := charSextet_sextetChar (s := b1 % 4 * 16 + b2 / 16) (by omega)
    have hc3 := charSextet_sextetChar (s := b2 % 16 * 4) (by omega)
    have hne3 := sextetChar_ne_61 (s := b2 % 16 * 4) (by omega)
    simp only [b64Encode, b64Decode, hc1, hc2, hc3, if_neg hne3]
    simp
    omega
  | case4 b1 b2 b3 rest ih =>
    intro hb
    have h1 : b1 < 256 := hb b1 (by simp)
    have h2 : b2 < 256 := hb b2 (by simp)
    have h3 : b3 < 256 := hb b3 (by simp)
    have hrest : ∀ b ∈ rest, b < 256 := fun b hbm => hb b (by simp [hbm])
    have hc1 := charSextet_sextetChar (s := b1 / 4) (by omega)
    have hc2 := charSextet_sextetChar (s := b1 % 4 * 16 + b2 / 16) (by omega)
    have hc3 := charSextet_sextetChar (s := b2 % 16 * 4 + b3 / 64) (by omega)
    have hc4 := charSextet_sextetChar (s := b3 % 64) (by omega)
    have hne3 := sextetChar_ne_61 (s := b2 % 16 * 4 + b3 / 64) (by omega)
    have hne4 := sextetChar_ne_61 (s := b3 % 64) (by omega)
    simp only [b64Encode, b64Decode, hc1, hc2, hc3, hc4, if_neg hne3, if_neg hne4,
      ih hrest]
    simp
    omega

/-! ## Go string helpers (strings.TrimSpace, strings.Split, strconv.Atoi) -/

/-- White space in the Latin-1 range, as Go's `unicode.IsSpace` treats it. -/
def isSpaceChar (c : Char) : Bool :=
  c.toNat == 32 || c.toNat == 9 || c.toNat == 10 || c.toNat == 11 ||
    c.toNat == 12 || c.toNat == 13 || c.toNat == 133 || c.toNat == 160

def trimLeft (l : List Char) : List Char := l.dropWhile isSpaceChar

def trimRight (l : List Char) : List Char := (l.reverse.dropWhile isSpaceChar).reverse

/-- Go `strings.TrimSpace`. -/
def trimSpace (l : List Char) : List Char := trimLeft (trimRight l)

/-- Go `strings.Split(s, ",")`: n commas give n+1 parts, empties kept. -/
def splitOnComma : List Char → List (List Char)
  | [] => [[]]
  | c :: rest =>
    if c = ',' then [] :: splitOnComma rest
    else
      match splitOnComma rest with
      | [] => [[c]]
      | seg :: segs => (c :: seg) :: segs

/-- `ParseCommaSeparatedPaths` (utils.go lines 210-224): nil when the input
trims to nothing, otherwise split on commas, trim each part, and keep the
non-empty ones. -/
def ParseCommaSeparatedPaths (input : List Char) : List (List Char) :=
  if trimSpace input = [] then []
  else ((splitOnComma input).map trimSpace).filter (fun p => !p.isEmpty)

/-- Decimal digit run accumulator for `atoi`. -/
def parseDigitsAux : Nat → List Char → Option Nat
  | acc, [] => some acc
  | acc, c :: rest =>
    if 48 ≤ c.toNat ∧ c.toNat ≤ 57 then parseDigitsAux (acc * 10 + (c.toNat - 48)) rest
    else none

def parseDigits : List Char → Option Nat
  | [] => none
  | l => parseDigitsAux 0 l

/-- Go `strconv.Atoi`: optional sign, then a non-empty digit run. -/
def atoi (l : List Char) : Option Int :=
  match l with
  | '+' :: rest => (parseDigits rest).map (fun n => (n : Int))
  | '-' :: rest => (parseDigits rest).map (fun n => -(n : Int))
  | _ => (parseDigits l).map (fun n => (n : Int))

/-! ## Subjects, certificate templates and events -/

/-- The pkix.Name fields the tool sets; an optional field is present exactly
when its input is non-empty. -/
structure Subject where
  commonName : List Char
  organization : Option (List Char)
  orgUnit : Option (List Char)
  locality : Option (List Char)
  province : Option (List Char)
  country : Option (List Char)
deriving DecidableEq

/-- The shared field filter of `BuildSubject` (CLI) and
`createSubjectFromInputs` (GUI). -/
def buildSubjectFields (cn org ou loc prov country : List Char) : Subject where
  commonName := cn
  organization := if org = [] then none else some org
  orgUnit := if ou = [] then none else some ou
  locality := if loc = [] then none else some loc
  province := if prov = [] then none else some prov
  country := if country = [] then none else some country

def kuDigitalSignature : Nat := 1
def kuKeyEncipherment : Nat := 4
def kuDataEncipherment : Nat := 8
def kuKeyAgreement : Nat := 16
def kuCertSign : Nat := 32
def kuCRLSign : Nat := 64
def kuEncipherOnly : Nat := 128
def kuDecipherOnly : Nat := 256

/-- Nanoseconds in 24 hours (Go `24 * time.Hour`). -/
def day : Int := 24 * 60 * 60 * 1000000000

/-- The x509 certificate-template fields `GenerateKeyAndCert` sets
(utils.go lines 85-103). -/
structure CertTemplate where
  serialNumber : Nat
  subject : Subject
  notBefore : Int
  notAfter : Int
  isCA : Bool
  basicConstraintsValid : Bool
  maxPathLen : Int
  maxPathLenZero : Bool
  keyUsage : Nat
deriving DecidableEq

/-- The template construction of `GenerateKeyAndCert`: `NotBefore = now`,
`NotAfter = now + days*24h`, `BasicConstraintsValid = true`; when `isCA`,
the certificate-signing bit is or-ed into the key usage and `MaxPathLen` is
set to the constant 1 with `MaxPathLenZero = false`. -/
def generateTemplate (subject : Subject) (now : Int) (validityDays : Int)
    (isCA : Bool) (keyUsage : Nat) (serial : Nat) : CertTemplate :=
  let base : CertTemplate :=
    { serialNumber := serial
      subject := subject
      notBefore := now
      notAfter := now + validityDays * day
      isCA := isCA
      basicConstraintsValid := true
      maxPathLen := 0
      maxPathLenZero := false
      keyUsage := 0 }
  if isCA then
    { base with keyUsage := keyUsage ||| kuCertSign, maxPathLen := 1, maxPathLenZero := false }
  else
    { base with keyUsage := keyUsage }

/-- Events observable during one workflow invocation. -/
inductive Event (π : Type)
  | keyGenerated (key : Nat)
  | certCreated (tmpl : CertTemplate)
  | fileWritten (path : π) (content : List Nat)
deriving DecidableEq

/-- The errors of the utils helpers and of the CLI/GUI front-ends. -/
inductive UErr (π : Type)
  | subjectInvalid
  | missingOutPath
  | noValidPaths
  | shareTargetMismatch
  | marshalFailed
  | splitFailed (e : ShamirError)
  | writeShareFailed (path : π)
  | readShareFailed (path : π)
  | decodeShareFailed (path : π)
  | combineFailed (e : ShamirError)
  | certFileUnreadable (path : π)
  | certParseFailed
  | keyParseFailed
  | writeCertFailed (path : π)
  | writeKeyFailed (path : π)
  | invalidNumber
  | missingInput
deriving DecidableEq

/-! ## File-system model and the utils.go helpers -/

/-- A file-system model: contents by path, and the paths on which a write
fails (Go `os.WriteFile` returning an error). -/
structure FS (π : Type) where
  files : π → Option (List Nat)
  failing : π → Bool

/-- Write a file; fails exactly on the failing paths, otherwise overwrites. -/
def FS.write {π : Type} [DecidableEq π] (fs : FS π) (p : π) (c : List Nat) :
    Option (FS π) :=
  if fs.failing p then none
  else some ⟨fun q => if q = p then some c else fs.files q, fs.failing⟩

/-- `BuildSubject` (utils.go lines 31-63): the CLI subject builder; rejects
an absent common name. -/
def BuildSubject (π : Type) (cn org ou loc prov country : List Char) :
    Except (UErr π) Subject :=
  if cn = [] then .error .subjectInvalid
  else .ok (buildSubjectFields cn org ou loc prov country)

/-- `createSubjectFromInputs` (gui.go lines 21-44): the GUI subject builder;
performs no validation at all. -/
def createSubjectFromInputs (cn org ou loc prov country : List Char) : Subject :=
  buildSubjectFields cn org ou loc prov country

/-- The environment of one invocation: current time, the fresh key and the
serial the crypto library would produce, the split randomness, and the
external parsing/encoding collaborators (x509, PEM). -/
structure Env where
  now : Int
  newKey : Nat
  serial : Nat
  rand : Nat → Nat → GF
  parseCert : List Nat → Option CertTemplate
  parseECKey : List Nat → Option Nat
  marshalKey : Nat → Option (List Nat)
  encodeCertPEM : CertTemplate → Option CertTemplate → List Nat
  encodeKeyPEM : Nat → List Nat

/-- `GenerateKeyAndCert` (utils.go lines 65-125): generate an ECDSA key
(external: `env.newKey`), draw a serial, build the template, sign and
PEM-encode (external).  Returns the PEM bytes, the new private key, the
template, and the generation events. -/
def GenerateKeyAndCert (π : Type) (env : Env) (subject : Subject)
    (parent : Option CertTemplate) (isCA : Bool) (validityDays : Int)
    (keyUsage : Nat) : List Nat × Nat × CertTemplate × List (Event π) :=
  let tmpl := generateTemplate subject env.now validityDays isCA keyUsage env.serial
  (env.encodeCertPEM tmpl parent, env.newKey, tmpl,
    [.keyGenerated env.newKey, .certCreated tmpl])

/-- `ParseCertificateFromFile` (utils.go lines 127-142), with PEM decoding
and x509 parsing as an oracle. -/
def ParseCertificateFromFile {π : Type} (env : Env) (fs : FS π) (p : π) :
    Except (UErr π) CertTemplate :=
  match fs.files p with
  | none => .error (.certFileUnreadable p)
  | some data =>
    match env.parseCert data with
    | none => .error .certParseFailed
    | some c => .ok c

/-- The share-writing loop of `SplitKeyAndWriteShares`: writes each
(path, contents) pair in order and stops at the first failing write,
reporting exactly that path. -/
def writeSharesLoop {π : Type} [DecidableEq π] (fs : FS π) :
    List (π × List Nat) → Except (UErr π) Unit × FS π × List (Event π)
  | [] => (.ok (), fs, [])
  | (p, d) :: rest =>
    match fs.write p d with
    | none => (.error (.writeShareFailed p), fs, [])
    | some fs1 =>
      let r := writeSharesLoop fs1 rest
      (r.1, r.2.1, .fileWritten p d :: r.2.2)

/-- `SplitKeyAndWriteShares` (utils.go lines 184-208): check the share-path
count against n, marshal the key (external; an oracle), split with the
Shamir engine, then base64-encode each share and write it to its path. -/
def SplitKeyAndWriteShares {π : Type} [DecidableEq π]
    (marshal : Nat → Option (List Nat)) (rand : Nat → Nat → GF) (privKey : Nat)
    (n t : Int) (sharePaths : List π) (fs : FS π) :
    Except (UErr π) Unit × FS π × List (Event π) :=
  if (sharePaths.length : Int) ≠ n then (.error .shareTargetMismatch, fs, [])
  else
    match marshal privKey with
    | none => (.error .marshalFailed, fs, [])
    | some keyBytes =>
      match shamirSplit keyBytes n.toNat t.toNat rand with
      | .error e => (.error (.splitFailed e), fs, [])
      | .ok shares => writeSharesLoop fs (sharePaths.zip (shares.map b64Encode))

/-- The share-reading loop of `CombineSharesFromFiles`: read each file and
base64-decode it. -/
def readShares {π : Type} (fs : FS π) : List π → Except (UErr π) (List (List Nat))
  | [] => .ok []
  | p :: rest =>
    match fs.files p with
    | none => .error (.readShareFailed p)
    | some raw =>
      match b64Decode raw with
      | none => .error (.decodeShareFailed p)
      | some blob =>
        match readShares fs rest with
        | .error e => .error e
        | .ok blobs => .ok (blob :: blobs)

/-- `CombineSharesFromFiles` (utils.go lines 163-182). -/
def CombineSharesFromFiles {π : Type} (fs : FS π) (paths : List π) :
    Except (UErr π) (List Nat) :=
  match readShares fs paths with
  | .error e => .error e
  | .ok blobs =>
    match shamirCombine blobs with
    | .error e => .error (.combineFailed e)
    | .ok bs => .ok bs

/-! ## The CLI commands (cmd/cli/main.go, reproduced in the README) -/

/-- Paths and user inputs are Go strings, modelled as char lists. -/
abbrev SPath : Type := List Char

/-- The flag values of `create-root` (typed flags: days, n, t are ints). -/
structure RootFlags where
  cn : SPath
  org : SPath
  ou : SPath
  locality : SPath
  province : SPath
  country : SPath
  days : Int
  n : Int
  t : Int
  pemOut : SPath
  sharesOut : SPath

/-- `createRootCmd`: build the subject (CN required), check both output
flags, parse and count the share paths BEFORE generating the key pair, then
generate, write the certificate, and split-and-write the key. -/
def createRootCmd (env : Env) (fs : FS SPath) (f : RootFlags) :
    Except (UErr SPath) Unit × FS SPath × List (Event SPath) :=
  match BuildSubject SPath f.cn f.org f.ou f.locality f.province f.country with
  | .error e => (.error e, fs, [])
  | .ok subject =>
    if f.pemOut = [] then (.error .missingOutPath, fs, [])
    else if f.sharesOut = [] then (.error .missingOutPath, fs, [])
    else
      let sharePaths := ParseCommaSeparatedPaths f.sharesOut
      if sharePaths = [] then (.error .noValidPaths, fs, [])
      else if f.n ≠ (sharePaths.length : Int) then (.error .shareTargetMismatch, fs, [])
      else
        let g := GenerateKeyAndCert SPath env subject none true f.days
          (kuKeyEncipherment ||| kuDigitalSignature)
        match fs.write f.pemOut g.1 with
        | none => (.error (.writeCertFailed f.pemOut), fs, g.2.2.2)
        | some fs1 =>
          let s := SplitKeyAndWriteShares env.marshalKey env.rand g.2.1 f.n f.t sharePaths fs1
          (s.1, s.2.1, g.2.2.2 ++ [.fileWritten f.pemOut g.1] ++ s.2.2)

/-- The flag values of `create-subca`. -/
structure SubCAFlags where
  cn : SPath
  org : SPath
  ou : SPath
  locality : SPath
  province : SPath
  country : SPath
  days : Int
  issuing : Bool
  parentPem : SPath
  parentSharesIn : SPath
  n : Int
  t : Int
  sharesOut : SPath
  pemOut : SPath

/-- `createSubCACmd`: parse the parent certificate, reconstruct the parent
key from its shares, generate the subordinate key pair and certificate,
write the certificate, and only then count the destination share paths
against n before splitting the new key. -/
def createSubCACmd (env : Env) (fs : FS SPath) (f : SubCAFlags) :
    Except (UErr SPath) Unit × FS SPath × List (Event SPath) :=
  match BuildSubject SPath f.cn f.org f.ou f.locality f.province f.country with
  | .error e => (.error e, fs, [])
  | .ok subject =>
    if f.parentPem = [] then (.error .missingInput, fs, [])
    else
      match ParseCertificateFromFile env fs f.parentPem with
      | .error e => (.error e, fs, [])
      | .ok parentCert =>
        let parentSharePaths := ParseCommaSeparatedPaths f.parentSharesIn
        if parentSharePaths = [] then (.error .noValidPaths, fs, [])
        else
          match CombineSharesFromFiles fs parentSharePaths with
          | .error e => (.error e, fs, [])
          | .ok parentKeyBytes =>
            match env.parseECKey parentKeyBytes with
            | none => (.error .keyParseFailed, fs, [])
            | some _parentKey =>
              let g := GenerateKeyAndCert SPath env subject (some parentCert) true f.days
                (kuDigitalSignature ||| kuKeyEncipherment)
              if f.pemOut = [] then (.error .missingOutPath, fs, g.2.2.2)
              else
                match fs.write f.pemOut g.1 with
                | none => (.error (.writeCertFailed f.pemOut), fs, g.2.2.2)
                | some fs1 =>
                  let sharePaths := ParseCommaSeparatedPaths f.sharesOut
                  if f.n ≠ (sharePaths.length : Int) then
                    (.error .shareTargetMismatch, fs1, g.2.2.2 ++ [.fileWritten f.pemOut g.1])
                  else
                    let s := SplitKeyAndWriteShares env.marshalKey env.rand g.2.1
                      f.n f.t sharePaths fs1
                    (s.1, s.2.1, g.2.2.2 ++ [.fileWritten f.pemOut g.1] ++ s.2.2)

/-- The key-usage bitmask built from the seven boolean sign flags. -/
def buildSignKU (ds ke de ka crl eo dOnly : Bool) : Nat :=
  (if ds then kuDigitalSignature else 0) ||| (if ke then kuKeyEncipherment else 0) |||
    (if de then kuDataEncipherment else 0) ||| (if ka then kuKeyAgreement else 0) |||
    (if crl then kuCRLSign else 0) ||| (if eo then kuEncipherOnly else 0) |||
    (if dOnly then kuDecipherOnly else 0)

/-- The flag values of `sign`. -/
structure SignFlags where
  cn : SPath
  org : SPath
  ou : SPath
  locality : SPath
  province : SPath
  country : SPath
  days : Int
  caPem : SPath
  sharesIn : SPath
  certOut : SPath
  keyOut : SPath
  digitalSignature : Bool
  keyEncipherment : Bool
  dataEncipherment : Bool
  keyAgreement : Bool
  crlSign : Bool
  encipherOnly : Bool
  decipherOnly : Bool

/-- `signCmd`: reconstruct the CA key from shares, generate and sign the
leaf (IsCA = false), write the certificate, and write the leaf private key
only when a key output path was supplied. -/
def signCmd (env : Env) (fs : FS SPath) (f : SignFlags) :
    Except (UErr SPath) Unit × FS SPath × List (Event SPath) :=
  match BuildSubject SPath f.cn f.org f.ou f.locality f.province f.country with
  | .error e => (.error e, fs, [])
  | .ok subject =>
    if f.caPem = [] then (.error .missingInput, fs, [])
    else
      match ParseCertificateFromFile env fs f.caPem with
      | .error e => (.error e, fs, [])
      | .ok caCert =>
        let sharesInPaths := ParseCommaSeparatedPaths f.sharesIn
        if sharesInPaths = [] then (.error .noValidPaths, fs, [])
        else
          match CombineSharesFromFiles fs sharesInPaths with
          | .error e => (.error e, fs, [])
          | .ok caKeyBytes =>
            match env.parseECKey caKeyBytes with
            | none => (.error .keyParseFailed, fs, [])
            | some _caKey =>
              let ku := buildSignKU f.digitalSignature f.keyEncipherment
                f.dataEncipherment f.keyAgreement f.crlSign f.encipherOnly f.decipherOnly
              let g := GenerateKeyAndCert SPath env subject (some caCert) false f.days ku
              if f.certOut = [] then (.error .missingOutPath, fs, g.2.2.2)
              else
                match fs.write f.certOut g.1 with
                | none => (.error (.writeCertFailed f.certOut), fs, g.2.2.2)
                | some fs1 =>
                  if f.keyOut = [] then (.ok (), fs1, g.2.2.2 ++ [.fileWritten f.certOut g.1])
                  else
                    match fs1.write f.keyOut (env.encodeKeyPEM g.2.1) with
                    | none => (.error (.writeKeyFailed f.keyOut), fs1,
                        g.2.2.2 ++ [.fileWritten f.certOut g.1])
                    | some fs2 => (.ok (), fs2,
                        g.2.2.2 ++ [.fileWritten f.certOut g.1,
                          .fileWritten f.keyOut (env.encodeKeyPEM g.2.1)])

/-! ## The GUI tabs (cmd/gui/gui.go): same logic with raw text inputs -/

/-- The entry texts of the Root CA tab. -/
structure RootTabInputs where
  cn : SPath
  org : SPath
  ou : SPath
  locality : SPath
  province : SPath
  country : SPath
  days : SPath
  n : SPath
  t : SPath
  pemOut : SPath
  sharesOut : SPath

/-- The Create Root CA button handler (gui.go lines 201-262).  Unlike the
CLI, the subject is built with no common-name check and the share paths come
from a raw comma split of the trimmed entry text. -/
def createRootTab (env : Env) (fs : FS SPath) (i : RootTabInputs) :
    Except (UErr SPath) Unit × FS SPath × List (Event SPath) :=
  let subject := createSubjectFromInputs i.cn i.org i.ou i.locality i.province i.country
  match atoi i.days with
  | none => (.error .invalidNumber, fs, [])
  | some days =>
    match atoi i.n with
    | none => (.error .invalidNumber, fs, [])
    | some n =>
      match atoi i.t with
      | none => (.error .invalidNumber, fs, [])
      | some t =>
        if i.pemOut = [] then (.error .missingOutPath, fs, [])
        else
          let sharePaths := splitOnComma (trimSpace i.sharesOut)
          if (sharePaths.length : Int) ≠ n then (.error .shareTargetMismatch, fs, [])
          else
            let g := GenerateKeyAndCert SPath env subject none true days
              (kuKeyEncipherment ||| kuDigitalSignature)
            match fs.write i.pemOut g.1 with
            | none => (.error (.writeCertFailed i.pemOut), fs, g.2.2.2)
            | some fs1 =>
              let s := SplitKeyAndWriteShares env.marshalKey env.rand g.2.1 n t sharePaths fs1
              (s.1, s.2.1, g.2.2.2 ++ [.fileWritten i.pemOut g.1] ++ s.2.2)

/-- The entry texts of the SubCA tab. -/
structure SubCATabInputs where
  cn : SPath
  org : SPath
  ou : SPath
  locality : SPath
  province : SPath
  country : SPath
  days : SPath
  parentPem : SPath
  parentShares : SPath
  n : SPath
  t : SPath
  sharesOut : SPath
  pemOut : SPath

/-- The Create SubCA button handler (gui.go lines 415-503): parent parsing
and key reconstruction, then key generation and certificate writing, and
only afterwards the n/t parsing and the share-path count check. -/
def createSubCATab (env : Env) (fs : FS SPath) (i : SubCATabInputs) :
    Except (UErr SPath) Unit × FS SPath × List (Event SPath) :=
  let subject := createSubjectFromInputs i.cn i.org i.ou i.locality i.province i.country
  match atoi i.days with
  | none => (.error .invalidNumber, fs, [])
  | some days =>
    if i.parentPem = [] then (.error .missingInput, fs, [])
    else
      match ParseCertificateFromFile env fs i.parentPem with
      | .error e => (.error e, fs, [])
      | .ok parentCert =>
        let parentSharePaths := splitOnComma (trimSpace i.parentShares)
        if parentSharePaths.length = 0 then (.error .noValidPaths, fs, [])
        else
          match CombineSharesFromFiles fs parentSharePaths with
          | .error e => (.error e, fs, [])
          | .ok parentKeyBytes =>
            match env.parseECKey parentKeyBytes with
            | none => (.error .keyParseFailed, fs, [])
            | some _parentKey =>
              let g := GenerateKeyAndCert SPath env subject (some parentCert) true days
                (kuDigitalSignature ||| kuKeyEncipherment)
              if i.pemOut = [] then (.error .missingOutPath, fs, g.2.2.2)
              else
                match fs.write i.pemOut g.1 with
                | none => (.error (.writeCertFailed i.pemOut), fs, g.2.2.2)
                | some fs1 =>
                  match atoi i.n with
                  | none => (.error .invalidNumber, fs1,
                      g.2.2.2 ++ [.fileWritten i.pemOut g.1])
                  | some n =>
                    match atoi i.t with
                    | none => (.error .invalidNumber, fs1,
                        g.2.2.2 ++ [.fileWritten i.pemOut g.1])
                    | some t =>
                      let subSharePaths := splitOnComma (trimSpace i.sharesOut)
                      if (subSharePaths.length : Int) ≠ n then
                        (.error .shareTargetMismatch, fs1,
                          g.2.2.2 ++ [.fileWritten i.pemOut g.1])
                      else
                        let s := SplitKeyAndWriteShares env.marshalKey env.rand g.2.1
                          n t subSharePaths fs1
                        (s.1, s.2.1, g.2.2.2 ++ [.fileWritten i.pemOut g.1] ++ s.2.2)

/-- The entry texts of the Sign Leaf tab. -/
structure SignTabInputs where
  cn : SPath
  org : SPath
  ou : SPath
  locality : SPath
  province : SPath
  country : SPath
  days : SPath
  caPem : SPath
  sharesIn : SPath
  certOut : SPath
  keyOut : SPath
  dsCheck : Bool
  keCheck : Bool
  deCheck : Bool
  kaCheck : Bool
  crlCheck : Bool
  eoCheck : Bool
  doCheck : Bool

/-- The Sign Leaf button handler (gui.go lines 589-685). -/
def signTab (env : Env) (fs : FS SPath) (i : SignTabInputs) :
    Except (UErr SPath) Unit × FS SPath × List (Event SPath) :=
  let subject := createSubjectFromInputs i.cn i.org i.ou i.locality i.province i.country
  match atoi i.days with
  | none => (.error .invalidNumber, fs, [])
  | some days =>
    if i.caPem = [] then (.error .missingInput, fs, [])
    else
      match ParseCertificateFromFile env fs i.caPem with
      | .error e => (.error e, fs, [])
      | .ok caCert =>
        let sharePaths := splitOnComma (trimSpace i.sharesIn)
        if sharePaths.length = 0 then (.error .noValidPaths, fs, [])
        else
          match CombineSharesFromFiles fs sharePaths with
          | .error e => (.error e, fs, [])
          | .ok caKeyBytes =>
            match env.parseECKey caKeyBytes with
            | none => (.error .keyParseFailed, fs, [])
            | some _caKey =>
              let ku := buildSignKU i.dsCheck i.keCheck i.deCheck i.kaCheck
                i.crlCheck i.eoCheck i.doCheck
              let g := GenerateKeyAndCert SPath env subject (some caCert) false days ku
              if i.certOut = [] then (.error .missingOutPath, fs, g.2.2.2)
              else
                match fs.write i.certOut g.1 with
                | none => (.error (.writeCertFailed i.certOut), fs, g.2.2.2)
                | some fs1 =>
                  if i.keyOut = [] then
                    (.ok (), fs1, g.2.2.2 ++ [.fileWritten i.certOut g.1])
                  else
                    match fs1.write i.keyOut (env.encodeKeyPEM g.2.1) with
                    | none => (.error (.writeKeyFailed i.keyOut), fs1,
                        g.2.2.2 ++ [.fileWritten i.certOut g.1])
                    | some fs2 => (.ok (), fs2,
                        g.2.2.2 ++ [.fileWritten i.certOut g.1,
                          .fileWritten i.keyOut (env.encodeKeyPEM g.2.1)])

/-- The paths a front-end error value mentions. -/
def errPaths {π : Type} : UErr π → List π
  | .writeShareFailed p => [p]
  | .readShareFailed p => [p]
  | .decodeShareFailed p => [p]
  | .certFileUnreadable p => [p]
  | .writeCertFailed p => [p]
  | .writeKeyFailed p => [p]
  | _ => []

/-! ## Concrete data for the executable checks -/

/-- A concrete parent certificate template (as the x509 parsing oracle
returns it): a CA with path-length constraint 1. -/
def ct0 : CertTemplate where
  serialNumber := 0
  subject := buildSubjectFields [] [] [] [] [] []
  notBefore := 0
  notAfter := 0
  isCA := true
  basicConstraintsValid := true
  maxPathLen := 1
  maxPathLenZero := false
  keyUsage := 32

/-- A concrete environment: deterministic collaborators. -/
def env0 : Env where
  now := 0
  newKey := 42
  serial := 7
  rand := fun _ _ => 0
  parseCert := fun _ => some ct0
  parseECKey := fun _ => some 5
  marshalKey := fun _ => some [9]
  encodeCertPEM := fun _ _ => [1]
  encodeKeyPEM := fun _ => [2]

/-- A concrete file system: a parent certificate at "p", one valid parent
share at "s", and no failing paths. -/
def fs0 : FS SPath where
  files := fun p =>
    if p = ['p'] then some [1]
    else if p = ['s'] then some (b64Encode [1, 7]) else none
  failing := fun _ => false

/-- create-root flags asking for n = 3 shares but one destination. -/
def rootf0 : RootFlags where
  cn := ['c']
  org := []
  ou := []
  locality := []
  province := []
  country := []
  days := 1
  n := 3
  t := 1
  pemOut := ['o']
  sharesOut := ['a']

/-- Root tab inputs asking for n = 3 shares but one destination. -/
def rt1 : RootTabInputs where
  cn := ['c']
  org := []
  ou := []
  locality := []
  province := []
  country := []
  days := ['1']
  n := ['3']
  t := ['1']
  pemOut := ['o']
  sharesOut := ['a']

/-- Root tab inputs with an empty common name that otherwise succeed:
n = t = 1, one destination. -/
def rt0 : RootTabInputs where
  cn := []
  org := []
  ou := []
  locality := []
  province := []
  country := []
  days := ['1']
  n := ['1']
  t := ['1']
  pemOut := ['o']
  sharesOut := ['a']

/-- create-subca flags asking for n = 3 shares but one destination. -/
def subf0 : SubCAFlags where
  cn := ['c']
  org := []
  ou := []
  locality := []
  province := []
  country := []
  days := 1
  issuing := false
  parentPem := ['p']
  parentSharesIn := ['s']
  n := 3
  t := 1
  sharesOut := ['a']
  pemOut := ['o']

/-- SubCA tab inputs asking for n = 3 shares but one destination. -/
def subtab0 : SubCATabInputs where
  cn := ['c']
  org := []
  ou := []
  locality := []
  province := []
  country := []
  days := ['1']
  parentPem := ['p']
  parentShares := ['s']
  n := ['3']
  t := ['1']
  sharesOut := ['a']
  pemOut := ['o']

/-- sign flags with a key output path; everything succeeds. -/
def signf0 : SignFlags where
  cn := ['c']
  org := []
  ou := []
  locality := []
  province := []
  country := []
  days := 1
  caPem := ['p']
  sharesIn := ['s']
  certOut := ['o']
  keyOut := ['k']
  digitalSignature := true
  keyEncipherment := false
  dataEncipherment := false
  keyAgreement := false
  crlSign := false
  encipherOnly := false
  decipherOnly := false

/-- sign flags without a key output path. -/
def signf1 : SignFlags :=
  { signf0 with keyOut := [] }

/-- Sign tab inputs with a key output path. -/
def st0 : SignTabInputs where
  cn := ['c']
  org := []
  ou := []
  locality := []
  province := []
  country := []
  days := ['1']
  caPem := ['p']
  sharesIn := ['s']
  certOut := ['o']
  keyOut := ['k']
  dsCheck := true
  keCheck := false
  deCheck := false
  kaCheck := false
  crlCheck := false
  eoCheck := false
  doCheck := false

/-- Sign tab inputs without a key output path. -/
def st1 : SignTabInputs :=
  { st0 with keyOut := [] }

/-- create-root flags with an empty common name. -/
def rootf1 : RootFlags :=
  { rootf0 with cn := [] }

/-- create-subca flags with an empty common name. -/
def subf1 : SubCAFlags :=
  { subf0 with cn := [] }

/-- sign flags with an empty common name. -/
def signf2 : SignFlags :=
  { signf0 with cn := [] }

/-- The template of the subordinate certificate generated under `env0`. -/
def subTmpl0 : CertTemplate :=
  generateTemplate (buildSubjectFields ['c'] [] [] [] [] []) 0 1 true
    (kuDigitalSignature ||| kuKeyEncipherment) 7

/-- The template of the root certificate generated under `env0` from the
empty-common-name root-tab inputs. -/
def rootTmpl0 : CertTemplate :=
  generateTemplate (buildSubjectFields [] [] [] [] [] []) 0 1 true
    (kuKeyEncipherment ||| kuDigitalSignature) 7

/-! ## Helper lemmas for path parsing and share writing -/

theorem head?_dropWhile_false {α : Type} {p : α → Bool} :
    ∀ (l : List α) {c : α}, (l.dropWhile p).head? = some c → p c = false := by
  intro l
  induction l with
  | nil => intro c h; simp at h
  | cons a rest ih =>
    intro c h
    rw [List.dropWhile_cons] at h
    split at h
    · exact ih h
    · next hpa =>
      simp at h
      rw [← h]
      simpa using hpa

theorem trimSpace_head {l : List Char} {c : Char} (h : (trimSpace l).head? = some c) :
    isSpaceChar c = false := by
  rw [trimSpace, trimLeft] at h
  exact head?_dropWhile_false _ h

theorem getLast?_trimLeft {z : List Char} {c : Char}
    (h : (trimLeft z).getLast? = some c) : z.getLast? = some c := by
  rw [trimLeft] at h
  conv_lhs => rw [← List.takeWhile_append_dropWhile (p := isSpaceChar) (l := z)]
  rw [List.getLast?_append, h]
  rfl

theorem trimSpace_getLast {l : List Char} {c : Char}
    (h : (trimSpace l).getLast? = some c) : isSpaceChar c = false := by
  rw [trimSpace] at h
  have h2 := getLast?_trimLeft h
  rw [trimRight, List.getLast?_reverse] at h2
  exact head?_dropWhile_false _ h2

theorem trimSpace_eq_nil {l : List Char} (h : ∀ c ∈ l, isSpaceChar c = true) :
    trimSpace l = [] := by
  rw [trimSpace, trimRight, trimLeft]
  have hrev : l.reverse.dropWhile isSpaceChar = [] :=
    List.dropWhile_eq_nil_iff.mpr (fun x hx => h x (List.mem_reverse.mp hx))
  rw [hrev]
  rfl

theorem FS.write_eq_some {π : Type} [DecidableEq π] {fs : FS π} {p : π}
    {c : List Nat} {fs1 : FS π} (h : fs.write p c = some fs1) :
    fs.failing p = false ∧
      fs1.files = (fun q => if q = p then some c else fs.files q) ∧
      fs1.failing = fs.failing := by
  rw [FS.write] at h
  split at h
  · exact absurd h (by simp)
  · next hf =>
    injection h with h1
    rw [← h1]
    exact ⟨by simpa using hf, rfl, rfl⟩

theorem FS.write_eq_none {π : Type} [DecidableEq π] {fs : FS π} {p : π}
    {c : List Nat} (h : fs.write p c = none) : fs.failing p = true := by
  rw [FS.write] at h
  split at h
  · assumption
  · exact absurd h (by simp)

theorem writeSharesLoop_frame {π : Type} [DecidableEq π] :
    ∀ (prs : List (π × List Nat)) (fs : FS π) (q : π),
      q ∉ prs.map Prod.fst → (writeSharesLoop fs prs).2.1.files q = fs.files q := by
  intro prs
  induction prs with
  | nil => intro fs q _; rfl
  | cons pr rest ih =>
    intro fs q hq
    obtain ⟨p, d⟩ := pr
    simp only [List.map_cons, List.mem_cons, not_or] at hq
    rw [show writeSharesLoop fs ((p, d) :: rest)
        = (match fs.write p d with
           | none => (.error (.writeShareFailed p), fs, [])
           | some fs1 =>
             let r := writeSharesLoop fs1 rest
             (r.1, r.2.1, .fileWritten p d :: r.2.2)) from rfl]
    cases hw : fs.write p d with
    | none => rfl
    | some fs1 =>
      obtain ⟨-, hfiles, -⟩ := FS.write_eq_some hw
      have := ih fs1 q hq.2
      rw [this, hfiles]
      simp [hq.1]

theorem writeSharesLoop_fail {π : Type} [DecidableEq π] :
    ∀ (prs : List (π × List Nat)) (fs : FS π) (i : Nat) (hi : i < prs.length),
      (prs.map Prod.fst).Nodup →
      (∀ j (hj : j < prs.length), j < i → fs.failing (prs.get ⟨j, hj⟩).1 = false) →
      fs.failing (prs.get ⟨i, hi⟩).1 = true →
      (writeSharesLoop fs prs).1 = .error (.writeShareFailed (prs.get ⟨i, hi⟩).1) ∧
      (∀ j (hj : j < prs.length), j < i →
        (writeSharesLoop fs prs).2.1.files (prs.get ⟨j, hj⟩).1
          = some (prs.get ⟨j, hj⟩).2) ∧
      (∀ j (hj : j < prs.length), i ≤ j →
        (writeSharesLoop fs prs).2.1.files (prs.get ⟨j, hj⟩).1
          = fs.files (prs.get ⟨j, hj⟩).1) := by
  intro prs
  induction prs with
  | nil => intro fs i hi; exact absurd hi (by simp)
  | cons pr rest ih =>
    intro fs i hi hnd hbefore hfail
    obtain ⟨p, d⟩ := pr
    rw [List.map_cons, List.nodup_cons] at hnd
    rw [show writeSharesLoop fs ((p, d) :: rest)
        = (match fs.write p d with
           | none => (.error (.writeShareFailed p), fs, [])
           | some fs1 =>
             let r := writeSharesLoop fs1 rest
             (r.1, r.2.1, .fileWritten p d :: r.2.2)) from rfl]
    cases i with
    | zero =>
      have hwf : fs.write p d = none := by
        rw [FS.write]
        rw [show ((p, d) :: rest).get ⟨0, hi⟩ = (p, d) from rfl] at hfail
        simp [hfail]
      rw [hwf]
      refine ⟨rfl, ?_, ?_⟩
      · intro j hj hji; exact absurd hji (by omega)
      · intro j hj _; rfl
    | succ k =>
      have hp0 : fs.failing p = false := by
        have := hbefore 0 (by simp) (by omega)
        simpa using this
      cases hw : fs.write p d with
      | none => exact absurd (FS.write_eq_none hw) (by rw [hp0]; simp)
      | some fs1 =>
        obtain ⟨-, hfiles, hfailing⟩ := FS.write_eq_some hw
        have hk : k < rest.length := by simpa using hi
        have hrec := ih fs1 k hk hnd.2
          (by
            intro j hj hji
            rw [show rest.get ⟨j, hj⟩ = ((p, d) :: rest).get ⟨j + 1, by simpa using hj⟩
              from rfl, hfailing]
            exact hbefore (j + 1) (by simpa using hj) (by omega))
          (by
            rw [show rest.get ⟨k, hk⟩ = ((p, d) :: rest).get ⟨k + 1, hi⟩ from rfl, hfailing]
            exact hfail)
        refine ⟨hrec.1, ?_, ?_⟩
        · intro j hj hji
          cases j with
          | zero =>
            have hpnot : p ∉ rest.map Prod.fst := hnd.1
            rw [show (((p, d) :: rest).get ⟨0, hj⟩).1 = p from rfl,
              show (((p, d) :: rest).get ⟨0, hj⟩).2 = d from rfl,
              writeSharesLoop_frame rest fs1 p hpnot, hfiles]
            simp
          | succ j =>
            have hjr : j < rest.length := by simpa using hj
            rw [show ((p, d) :: rest).get ⟨j + 1, hj⟩ = rest.get ⟨j, hjr⟩ from rfl]
            exact hrec.2.1 j hjr (by omega)
        · intro j hj hji
          cases j with
          | zero => exact absurd hji (by omega)
          | succ j =>
            have hjr : j < rest.length := by simpa using hj
            have hne : (rest.get ⟨j, hjr⟩).1 ≠ p := by
              intro heq
              exact hnd.1 (heq ▸ List.mem_map.mpr ⟨rest.get ⟨j, hjr⟩, List.get_mem _ _ _, rfl⟩)
            rw [show ((p, d) :: rest).get ⟨j + 1, hj⟩ = rest.get ⟨j, hjr⟩ from rfl,
              hrec.2.2 j hjr (by omega)]
            simp only [hfiles]
            rw [if_neg hne]

theorem writeSharesLoop_error {π : Type} [DecidableEq π] :
    ∀ (prs : List (π × List Nat)) (fs : FS π) {e : UErr π},
      (writeSharesLoop fs prs).1 = .error e → ∃ p, e = .writeShareFailed p := by
  intro prs
  induction prs with
  | nil => intro fs e h; exact absurd h (by simp [writeSharesLoop])
  | cons pr rest ih =>
    intro fs e h
    obtain ⟨p, d⟩ := pr
    rw [show writeSharesLoop fs ((p, d) :: rest)
        = (match fs.write p d with
           | none => (.error (.writeShareFailed p), fs, [])
           | some fs1 =>
             let r := writeSharesLoop fs1 rest
             (r.1, r.2.1, .fileWritten p d :: r.2.2)) from rfl] at h
    cases hw : fs.write p d with
    | none =>
      rw [hw] at h
      simp at h
      exact ⟨p, h.symm⟩
    | some fs1 =>
      rw [hw] at h
      exact ih fs1 h

theorem writeSharesLoop_events {π : Type} [DecidableEq π] :
    ∀ (prs : List (π × List Nat)) (fs : FS π) (e : Event π),
      e ∈ (writeSharesLoop fs prs).2.2 → ∃ p c, e = .fileWritten p c := by
  intro prs
  induction prs with
  | nil => intro fs e h; exact absurd h (by simp [writeSharesLoop])
  | cons pr rest ih =>
    intro fs e h
    obtain ⟨p, d⟩ := pr
    rw [show writeSharesLoop fs ((p, d) :: rest)
        = (match fs.write p d with
           | none => (.error (.writeShareFailed p), fs, [])
           | some fs1 =>
             let r := writeSharesLoop fs1 rest
             (r.1, r.2.1, .fileWritten p d :: r.2.2)) from rfl] at h
    cases hw : fs.write p d with
    | none =>
      rw [hw] at h
      exact absurd h (by simp)
    | some fs1 =>
      rw [hw] at h
      simp only [List.mem_cons] at h
      rcases h with h | h
      · exact ⟨p, d, h⟩
      · exact ih fs1 e h

theorem shamirSplit_ok {secret : List Nat} {n t : Nat} {rand : Nat → Nat → GF}
    {shares : List (List Nat)} (hs : shamirSplit secret n t rand = .ok shares) :
    (1 ≤ t ∧ t ≤ n ∧ n ≤ 255 ∧ 1 ≤ secret.length) ∧
    shares = (List.range n).map (splitShare secret t rand) := by
  rw [shamirSplit] at hs
  split at hs
  · rename_i hg
    simp only [Except.ok.injEq] at hs
    exact ⟨hg, by rw [← hs]; rfl⟩
  · exact absurd hs (by simp)

theorem map_getD_range (l : List Nat) :
    (List.range l.length).map (fun p => l.getD p 0) = l := by
  apply List.ext_getElem
  · simp
  · intro i h1 h2
    simp only [List.getElem_map, List.getElem_range]
    rw [List.getD_eq_getElem l 0 h2]

theorem SplitKeyAndWriteShares_ok {π : Type} [DecidableEq π]
    {marshal : Nat → Option (List Nat)} {rand : Nat → Nat → GF} {privKey : Nat}
    {n t : Int} {sharePaths : List π} {fs fs' : FS π} {ev : List (Event π)}
    (hw : SplitKeyAndWriteShares marshal rand privKey n t sharePaths fs
        = (.ok (), fs', ev)) :
    (sharePaths.length : Int) = n ∧
    ∃ keyBytes shares, marshal privKey = some keyBytes ∧
      shamirSplit keyBytes n.toNat t.toNat rand = .ok shares ∧
      writeSharesLoop fs (sharePaths.zip (shares.map b64Encode)) = (.ok (), fs', ev) := by
  rw [SplitKeyAndWriteShares] at hw
  split at hw
  · exact absurd hw (by simp)
  · rename_i hn
    refine ⟨by omega, ?_⟩
    cases hm : marshal privKey with
    | none => rw [hm] at hw; exact absurd hw (by simp)
    | some keyBytes =>
      rw [hm] at hw
      dsimp only at hw
      cases hs : shamirSplit keyBytes n.toNat t.toNat rand with
      | error e => rw [hs] at hw; exact absurd hw (by simp)
      | ok shares =>
        rw [hs] at hw
        exact ⟨keyBytes, shares, rfl, hs, hw⟩

theorem writeSharesLoop_ok_files {π : Type} [DecidableEq π] :
    ∀ (prs : List (π × List Nat)) (fs fs' : FS π) (ev : List (Event π)),
      (prs.map Prod.fst).Nodup →
      writeSharesLoop fs prs = (.ok (), fs', ev) →
      ∀ pd ∈ prs, fs'.files pd.1 = some pd.2 := by
  intro prs
  induction prs with
  | nil => intro fs fs' ev _ _ pd hpd; exact absurd hpd (by simp)
  | cons pr rest ih =>
    intro fs fs' ev hnd hw pd hpd
    obtain ⟨p, d⟩ := pr
    rw [List.map_cons, List.nodup_cons] at hnd
    rw [show writeSharesLoop fs ((p, d) :: rest)
        = (match fs.write p d with
           | none => (.error (.writeShareFailed p), fs, [])
           | some fs1 =>
             let r := writeSharesLoop fs1 rest
             (r.1, r.2.1, .fileWritten p d :: r.2.2)) from rfl] at hw
    cases hwrite : fs.write p d with
    | none => rw [hwrite] at hw; exact absurd hw (by simp)
    | some fs1 =>
      rw [hwrite] at hw
      dsimp only at hw
      have h1 : (writeSharesLoop fs1 rest).1 = .ok ()
          ∧ (writeSharesLoop fs1 rest).2.1 = fs' := by
        refine ⟨congrArg Prod.fst hw, ?_⟩
        have := congrArg (fun x => x.2.1) hw
        exact this
      obtain ⟨hfst, hsnd⟩ := h1
      rcases List.mem_cons.mp hpd with hpd | hpd
      · subst hpd
        obtain ⟨-, hfiles, -⟩ := FS.write_eq_some hwrite
        rw [← hsnd, writeSharesLoop_frame rest fs1 p hnd.1, hfiles]
        simp
      · have hrec : writeSharesLoop fs1 rest
            = (.ok (), fs', (writeSharesLoop fs1 rest).2.2) := by
          rw [← hfst, ← hsnd]
        exact ih fs1 fs' _ hnd.2 hrec pd hpd

theorem readShares_of_files {π : Type} (fs : FS π) (blobFor : π → List Nat) :
    ∀ (paths : List π),
      (∀ p ∈ paths, fs.files p = some (b64Encode (blobFor p)) ∧
        ∀ b ∈ blobFor p, b < 256) →
      readShares fs paths = .ok (paths.map blobFor) := by
  intro paths
  induction paths with
  | nil => intro _; rfl
  | cons p rest ih =>
    intro h
    obtain ⟨hp, hbytes⟩ := h p (by simp)
    rw [show readShares fs (p :: rest)
        = (match fs.files p with
           | none => .error (.readShareFailed p)
           | some raw =>
             match b64Decode raw with
             | none => .error (.decodeShareFailed p)
             | some blob =>
               match readShares fs rest with
               | .error e => .error e
               | .ok blobs => .ok (blob :: blobs)) from rfl]
    rw [hp]
    dsimp only
    rw [b64_roundtrip _ hbytes]
    dsimp only
    rw [ih (fun q hq => h q (by simp [hq]))]
    rfl


set_option maxHeartbeats 1600000 in
theorem shamirCombine_split_select (secret : List Nat) (n t : Nat) (rand : Nat → Nat → GF)
    (hsec : ∀ b ∈ secret, b < 256) (ht : 1 ≤ t) (hn : n ≤ 255) (hsl : 1 ≤ secret.length)
    (is : List Nat) (hisn : ∀ i ∈ is, i < n) (hnd : is.Nodup) (hlen : is.length = t) :
    shamirCombine (is.map (splitShare secret t rand)) = .ok secret := by
  obtain ⟨i0, is', rfl⟩ : ∃ i0 is', is = i0 :: is' := by
    cases is with
    | nil => exfalso; simp at hlen; omega
    | cons a l => exact ⟨a, l, rfl⟩
  simp only [List.length_cons] at hlen
  rw [List.map_cons]
  rw [shamirCombine]
  rw [if_neg (by simp [splitShare])]
  rw [if_neg (by
    simp only [splitShare, List.length_cons, List.length_map, List.length_range]
    omega)]
  rw [if_neg (by simp [splitShare])]
  rw [if_pos (by
    have hmh : (splitShare secret t rand i0 :: is'.map (splitShare secret t rand)).map
        (fun b => b.headD 0) = (i0 :: is').map (fun i => i + 1) := by
      simp [splitShare, List.map_map]
    rw [hmh]
    exact List.Nodup.map (fun a b h => by omega) hnd)]
  have hL : (splitShare secret t rand i0).length - 1 = secret.length := by
    simp [splitShare]
  rw [hL]
  have hblob : ∀ (jv : Nat)
      (hj : jv < (splitShare secret t rand i0 :: is'.map (splitShare secret t rand)).length),
      (splitShare secret t rand i0 :: is'.map (splitShare secret t rand)).get ⟨jv, hj⟩
        = splitShare secret t rand ((i0 :: is').get ⟨jv, by simpa using hj⟩) := by
    intro jv hj
    cases jv with
    | zero => rfl
    | succ k => simp
  have hmem : ∀ (jv : Nat) (hj : jv < (i0 :: is').length),
      (i0 :: is').get ⟨jv, hj⟩ < n := by
    intro jv hj
    exact hisn _ (List.get_mem _ _ _)
  congr 1
  conv_rhs => rw [← map_getD_range secret]
  apply List.map_congr_left
  intro p hp
  rw [List.mem_range] at hp
  have hx : Function.Injective (fun j :
      Fin (splitShare secret t rand i0 :: is'.map (splitShare secret t rand)).length =>
      ofByte (((splitShare secret t rand i0 ::
        is'.map (splitShare secret t rand)).get j).headD 0)) := by
    intro j k h
    obtain ⟨jv, hjv⟩ := j
    obtain ⟨kv, hkv⟩ := k
    simp only [hblob] at h
    simp only [splitShare, List.headD_cons] at h
    have hlt1 : (i0 :: is').get ⟨jv, by simpa using hjv⟩ + 1 < 256 := by
      have := hmem jv (by simpa using hjv)
      omega
    have hlt2 : (i0 :: is').get ⟨kv, by simpa using hkv⟩ + 1 < 256 := by
      have := hmem kv (by simpa using hkv)
      omega
    have h2 := ofByte_injOn hlt1 hlt2 h
    have h3 : (i0 :: is').get ⟨jv, by simpa using hjv⟩
        = (i0 :: is').get ⟨kv, by simpa using hkv⟩ := by omega
    have h4 := (List.Nodup.get_inj_iff hnd).mp h3
    have h5 : jv = kv := congrArg Fin.val h4
    exact Fin.ext h5
  have hy : (fun j :
      Fin (splitShare secret t rand i0 :: is'.map (splitShare secret t rand)).length =>
      ofByte (((splitShare secret t rand i0 :: is'.map (splitShare secret t rand)).get j).getD
        (p + 1) 0))
      = fun j => evalPoly
          (ofByte (secret.getD p 0) :: (List.range (t - 1)).map (rand p))
          (ofByte (((splitShare secret t rand i0 ::
              is'.map (splitShare secret t rand)).get j).headD 0)) := by
    funext j
    obtain ⟨jv, hjv⟩ := j
    simp only [hblob]
    simp only [splitShare, List.headD_cons]
    rw [List.getD_cons_succ]
    rw [List.getD_eq_getElem _ 0 (by simpa using hp)]
    simp only [List.getElem_map, List.getElem_range]
    exact ofByte_roundtrip _
  rw [hy]
  rw [lagrangeAt0_evalPoly _ hx
    (ofByte (secret.getD p 0) :: (List.range (t - 1)).map (rand p))
    (by
      simp only [List.length_cons, List.length_map, List.length_range]
      omega)]
  rw [List.headD_cons]
  exact ofByte_val (by
    rw [List.getD_eq_getElem secret 0 hp]
    exact hsec _ (List.getElem_mem hp))

theorem SplitKeyAndWriteShares_error {π : Type} [DecidableEq π]
    (marshal : Nat → Option (List Nat)) (rand : Nat → Nat → GF) (privKey : Nat)
    (n t : Int) (sharePaths : List π) (fs : FS π) {e : UErr π}
    (h : (SplitKeyAndWriteShares marshal rand privKey n t sharePaths fs).1 = .error e) :
    e = .shareTargetMismatch ∨ e = .marshalFailed ∨ (∃ se, e = .splitFailed se) ∨
      (∃ p, e = .writeShareFailed p) := by
  rw [SplitKeyAndWriteShares] at h
  split at h
  · simp at h
    exact Or.inl h.symm
  · split at h
    · simp at h
      exact Or.inr (Or.inl h.symm)
    · split at h
      · simp at h
        exact Or.inr (Or.inr (Or.inl ⟨_, h.symm⟩))
      · exact Or.inr (Or.inr (Or.inr (writeSharesLoop_error _ _ h)))

theorem SplitKeyAndWriteShares_events {π : Type} [DecidableEq π]
    (marshal : Nat → Option (List Nat)) (rand : Nat → Nat → GF) (privKey : Nat)
    (n t : Int) (sharePaths : List π) (fs : FS π) (e : Event π)
    (h : e ∈ (SplitKeyAndWriteShares marshal rand privKey n t sharePaths fs).2.2) :
    ∃ p c, e = .fileWritten p c := by
  rw [SplitKeyAndWriteShares] at h
  split at h
  · exact absurd h (by simp)
  · split at h
    · exact absurd h (by simp)
    · split at h
      · exact absurd h (by simp)
      · exact writeSharesLoop_events _ _ _ h

theorem readShares_error {π : Type} (fs : FS π) :
    ∀ (paths : List π) {e : UErr π}, readShares fs paths = .error e →
      (∃ p, e = .readShareFailed p) ∨ (∃ p, e = .decodeShareFailed p) := by
  intro paths
  induction paths with
  | nil => intro e h; exact absurd h (by simp [readShares])
  | cons p rest ih =>
    intro e h
    rw [show readShares fs (p :: rest)
        = (match fs.files p with
           | none => .error (.readShareFailed p)
           | some raw =>
             match b64Decode raw with
             | none => .error (.decodeShareFailed p)
             | some blob =>
               match readShares fs rest with
               | .error e => .error e
               | .ok blobs => .ok (blob :: blobs)) from rfl] at h
    cases hf : fs.files p with
    | none =>
      rw [hf] at h
      simp at h
      exact Or.inl ⟨p, h.symm⟩
    | some raw =>
      rw [hf] at h
      dsimp only at h
      cases hd : b64Decode raw with
      | none =>
        rw [hd] at h
        simp at h
        exact Or.inr ⟨p, h.symm⟩
      | some blob =>
        rw [hd] at h
        dsimp only at h
        cases hr : readShares fs rest with
        | error e2 =>
          rw [hr] at h
          simp at h
          exact h ▸ ih hr
        | ok blobs =>
          rw [hr] at h
          exact absurd h (by simp)

theorem CombineSharesFromFiles_error {π : Type} (fs : FS π) (paths : List π)
    {e : UErr π} (h : CombineSharesFromFiles fs paths = .error e) :
    (∃ p, e = .readShareFailed p) ∨ (∃ p, e = .decodeShareFailed p) ∨
      (∃ se, e = .combineFailed se) := by
  rw [CombineSharesFromFiles] at h
  cases hr : readShares fs paths with
  | error e2 =>
    rw [hr] at h
    simp at h
    rcases h ▸ readShares_error fs paths hr with h2 | h2
    · exact Or.inl h2
    · exact Or.inr (Or.inl h2)
  | ok blobs =>
    rw [hr] at h
    dsimp only at h
    cases hc : shamirCombine blobs with
    | error se =>
      rw [hc] at h
      simp at h
      exact Or.inr (Or.inr ⟨se, h.symm⟩)
    | ok bs =>
      rw [hc] at h
      exact absurd h (by simp)

theorem ParseCertificateFromFile_error {π : Type} (env : Env) (fs : FS π) (p : π)
    {e : UErr π} (h : ParseCertificateFromFile env fs p = .error e) :
    e = .certFileUnreadable p ∨ e = .certParseFailed := by
  rw [ParseCertificateFromFile] at h
  cases hf : fs.files p with
  | none =>
    rw [hf] at h
    simp at h
    exact Or.inl h.symm
  | some data =>
    rw [hf] at h
    dsimp only at h
    cases hp : env.parseCert data with
    | none =>
      rw [hp] at h
      simp at h
      exact Or.inr h.symm
    | some c =>
      rw [hp] at h
      exact absurd h (by simp)

/-! ## Claim theorems -/

theorem BuildSubject_error {π : Type} {cn org ou loc prov country : List Char}
    {e : UErr π} (h : BuildSubject π cn org ou loc prov country = .error e) :
    e = .subjectInvalid := by
  rw [BuildSubject] at h
  split at h
  · simp at h
    exact h.symm
  · exact absurd h (by simp)

theorem createRootCmd_mismatch_early (env : Env) (fs : FS SPath) (f : RootFlags)
    (hcn : ¬ f.cn = []) (hpem : ¬ f.pemOut = []) (hso : ¬ f.sharesOut = [])
    (hpp : ¬ ParseCommaSeparatedPaths f.sharesOut = [])
    (hmm : f.n ≠ ((ParseCommaSeparatedPaths f.sharesOut).length : Int)) :
    createRootCmd env fs f = (.error .shareTargetMismatch, fs, []) := by
  simp only [createRootCmd, BuildSubject, if_neg hcn, if_neg hpem, if_neg hso,
    if_neg hpp, if_pos hmm]

theorem createRootTab_mismatch_early (env : Env) (fs : FS SPath) (i : RootTabInputs)
    (d nv tv : Int) (hd : atoi i.days = some d) (hn : atoi i.n = some nv)
    (ht : atoi i.t = some tv) (hpem : ¬ i.pemOut = [])
    (hmm : ((splitOnComma (trimSpace i.sharesOut)).length : Int) ≠ nv) :
    createRootTab env fs i = (.error .shareTargetMismatch, fs, []) := by
  simp only [createRootTab, hd, hn, ht, if_neg hpem, if_pos hmm]

set_option maxHeartbeats 1000000 in
theorem createSubCACmd_mismatch_late (env : Env) (fs : FS SPath) (f : SubCAFlags)
    (h : (createSubCACmd env fs f).1 = .error .shareTargetMismatch) :
    Event.keyGenerated env.newKey ∈ (createSubCACmd env fs f).2.2 := by
  revert h
  unfold createSubCACmd
  dsimp only
  repeat' split
  all_goals intro h
  all_goals try (exfalso; simp at h; done)
  all_goals try (simp [GenerateKeyAndCert]; done)
  all_goals
    exfalso
    simp at h
    subst h
    rename_i heq
    first
    | (have h2 := BuildSubject_error heq; simp at h2)
    | (rcases ParseCertificateFromFile_error _ _ _ heq with h2 | h2 <;> simp at h2)
    | (rcases CombineSharesFromFiles_error _ _ heq with ⟨p, h2⟩ | ⟨p, h2⟩ | ⟨se, h2⟩ <;>
        simp at h2)

set_option maxHeartbeats 1000000 in
theorem createSubCATab_mismatch_late (env : Env) (fs : FS SPath) (i : SubCATabInputs)
    (h : (createSubCATab env fs i).1 = .error .shareTargetMismatch) :
    Event.keyGenerated env.newKey ∈ (createSubCATab env fs i).2.2 := by
  revert h
  unfold createSubCATab
  dsimp only
  repeat' split
  all_goals intro h
  all_goals try (exfalso; simp at h; done)
  all_goals try (simp [GenerateKeyAndCert]; done)
  all_goals
    exfalso
    simp at h
    subst h
    rename_i heq
    first
    | (have h2 := BuildSubject_error heq; simp at h2)
    | (rcases ParseCertificateFromFile_error _ _ _ heq with h2 | h2 <;> simp at h2)
    | (rcases CombineSharesFromFiles_error _ _ heq with ⟨p, h2⟩ | ⟨p, h2⟩ | ⟨se, h2⟩ <;>
        simp at h2)

set_option maxHeartbeats 1000000 in
theorem createSubCACmd_cert_fields (env : Env) (fs : FS SPath) (f : SubCAFlags)
    (c : CertTemplate) (h : Event.certCreated c ∈ (createSubCACmd env fs f).2.2) :
    c.isCA = true ∧ c.maxPathLen = 1 ∧ c.maxPathLenZero = false := by
  revert h
  unfold createSubCACmd
  dsimp only
  repeat' split
  all_goals intro h
  all_goals try (exfalso; simp at h; done)
  all_goals
    simp only [GenerateKeyAndCert, List.mem_append, List.mem_cons, List.mem_singleton,
      List.not_mem_nil, or_false, false_or, List.cons_append, List.nil_append,
      Event.certCreated.injEq, reduceCtorEq] at h
    first
    | (rcases h with h | h
       · subst h; simp [generateTemplate]
       · (obtain ⟨p, cc, hpc⟩ := SplitKeyAndWriteShares_events _ _ _ _ _ _ _ _ h
          simp at hpc))
    | (subst h; simp [generateTemplate])

set_option maxHeartbeats 1000000 in
theorem createSubCATab_cert_fields (env : Env) (fs : FS SPath) (i : SubCATabInputs)
    (c : CertTemplate) (h : Event.certCreated c ∈ (createSubCATab env fs i).2.2) :
    c.isCA = true ∧ c.maxPathLen = 1 ∧ c.maxPathLenZero = false := by
  revert h
  unfold createSubCATab
  dsimp only
  repeat' split
  all_goals intro h
  all_goals try (exfalso; simp at h; done)
  all_goals
    simp only [GenerateKeyAndCert, List.mem_append, List.mem_cons, List.mem_singleton,
      List.not_mem_nil, or_false, false_or, List.cons_append, List.nil_append,
      Event.certCreated.injEq, reduceCtorEq] at h
    first
    | (rcases h with h | h
       · subst h; simp [generateTemplate]
       · (obtain ⟨p, cc, hpc⟩ := SplitKeyAndWriteShares_events _ _ _ _ _ _ _ _ h
          simp at hpc))
    | (subst h; simp [generateTemplate])

set_option maxHeartbeats 1000000 in
theorem createRootTab_no_subjectInvalid (env : Env) (fs : FS SPath) (i : RootTabInputs) :
    (createRootTab env fs i).1 ≠ Except.error UErr.subjectInvalid := by
  unfold createRootTab
  dsimp only
  repeat' split
  all_goals intro h
  all_goals try (simp at h; done)
  all_goals
    simp at h
    first
    | (rcases SplitKeyAndWriteShares_error _ _ _ _ _ _ _ h with h2 | h2 | ⟨se, h2⟩ | ⟨p, h2⟩ <;>
        simp at h2)
    | (subst h
       rename_i heq
       first
       | (rcases ParseCertificateFromFile_error _ _ _ heq with h2 | h2 <;> simp at h2)
       | (rcases CombineSharesFromFiles_error _ _ heq with ⟨p, h2⟩ | ⟨p, h2⟩ | ⟨se, h2⟩ <;>
           simp at h2))

set_option maxHeartbeats 1000000 in
theorem createSubCATab_no_subjectInvalid (env : Env) (fs : FS SPath) (i : SubCATabInputs) :
    (createSubCATab env fs i).1 ≠ Except.error UErr.subjectInvalid := by
  unfold createSubCATab
  dsimp only
  repeat' split
  all_goals intro h
  all_goals try (simp at h; done)
  all_goals
    simp at h
    first
    | (rcases SplitKeyAndWriteShares_error _ _ _ _ _ _ _ h with h2 | h2 | ⟨se, h2⟩ | ⟨p, h2⟩ <;>
        simp at h2)
    | (subst h
       rename_i heq
       first
       | (rcases ParseCertificateFromFile_error _ _ _ heq with h2 | h2 <;> simp at h2)
       | (rcases CombineSharesFromFiles_error _ _ heq with ⟨p, h2⟩ | ⟨p, h2⟩ | ⟨se, h2⟩ <;>
           simp at h2))

set_option maxHeartbeats 1000000 in
theorem signTab_no_subjectInvalid (env : Env) (fs : FS SPath) (i : SignTabInputs) :
    (signTab env fs i).1 ≠ Except.error UErr.subjectInvalid := by
  unfold signTab
  dsimp only
  repeat' split
  all_goals intro h
  all_goals try (simp at h; done)
  all_goals
    simp at h
    first
    | (rcases SplitKeyAndWriteShares_error _ _ _ _ _ _ _ h with h2 | h2 | ⟨se, h2⟩ | ⟨p, h2⟩ <;>
        simp at h2)
    | (subst h
       rename_i heq
       first
       | (rcases ParseCertificateFromFile_error _ _ _ heq with h2 | h2 <;> simp at h2)
       | (rcases CombineSharesFromFiles_error _ _ heq with ⟨p, h2⟩ | ⟨p, h2⟩ | ⟨se, h2⟩ <;>
           simp at h2))

set_option maxHeartbeats 1000000 in
theorem signCmd_no_key_write (env : Env) (fs : FS SPath) (f : SignFlags)
    (hk : f.keyOut = []) (p : SPath) (c : List Nat)
    (h : Event.fileWritten p c ∈ (signCmd env fs f).2.2) : p = f.certOut := by
  revert h
  unfold signCmd
  dsimp only
  repeat' split
  all_goals intro h
  all_goals try (exfalso; simp at h; done)
  all_goals try (exact absurd hk (by assumption))
  all_goals first
  | (simp [GenerateKeyAndCert] at h; done)
  | (simp [GenerateKeyAndCert] at h; tauto)

set_option maxHeartbeats 1000000 in
theorem signCmd_key_written (env : Env) (fs : FS SPath) (f : SignFlags)
    (hok : (signCmd env fs f).1 = Except.ok ()) (hk : f.keyOut ≠ []) :
    Event.fileWritten f.keyOut (env.encodeKeyPEM env.newKey) ∈ (signCmd env fs f).2.2 := by
  revert hok
  unfold signCmd
  dsimp only
  repeat' split
  all_goals intro hok
  all_goals try (exfalso; simp at hok; done)
  all_goals try (exact absurd (by assumption) hk)
  all_goals simp [GenerateKeyAndCert]

set_option maxHeartbeats 1000000 in
theorem signTab_no_key_write (env : Env) (fs : FS SPath) (i : SignTabInputs)
    (hk : i.keyOut = []) (p : SPath) (c : List Nat)
    (h : Event.fileWritten p c ∈ (signTab env fs i).2.2) : p = i.certOut := by
  revert h
  unfold signTab
  dsimp only
  repeat' split
  all_goals intro h
  all_goals try (exfalso; simp at h; done)
  all_goals try (exact absurd hk (by assumption))
  all_goals first
  | (simp [GenerateKeyAndCert] at h; done)
  | (simp [GenerateKeyAndCert] at h; tauto)

set_option maxHeartbeats 1000000 in
theorem signTab_key_written (env : Env) (fs : FS SPath) (i : SignTabInputs)
    (hok : (signTab env fs i).1 = Except.ok ()) (hk : i.keyOut ≠ []) :
    Event.fileWritten i.keyOut (env.encodeKeyPEM env.newKey) ∈ (signTab env fs i).2.2 := by
  revert hok
  unfold signTab
  dsimp only
  repeat' split
  all_goals intro hok
  all_goals try (exfalso; simp at hok; done)
  all_goals try (exact absurd (by assumption) hk)
  all_goals simp [GenerateKeyAndCert]

theorem createRootCmd_empty_cn (env : Env) (fs : FS SPath) (f : RootFlags)
    (hcn : f.cn = []) :
    createRootCmd env fs f = (.error .subjectInvalid, fs, []) := by
  simp [createRootCmd, BuildSubject, hcn]

theorem createSubCACmd_empty_cn (env : Env) (fs : FS SPath) (f : SubCAFlags)
    (hcn : f.cn = []) :
    createSubCACmd env fs f = (.error .subjectInvalid, fs, []) := by
  simp [createSubCACmd, BuildSubject, hcn]

theorem signCmd_empty_cn (env : Env) (fs : FS SPath) (f : SignFlags)
    (hcn : f.cn = []) :
    signCmd env fs f = (.error .subjectInvalid, fs, []) := by
  simp [signCmd, BuildSubject, hcn]

/-- Claim C10: ParseCommaSeparatedPaths returns no empty entries and no
entries with leading or trailing whitespace (head and last characters are
never white space), and an input that is empty or all white space yields
the empty result; empty or whitespace-only segments are dropped rather
than kept. -/
theorem claim_C10_parse_paths (input : List Char) :
    (∀ e ∈ ParseCommaSeparatedPaths input, e ≠ [] ∧
      (∀ c, e.head? = some c → isSpaceChar c = false) ∧
      (∀ c, e.getLast? = some c → isSpaceChar c = false)) ∧
    ((∀ c ∈ input, isSpaceChar c = true) → ParseCommaSeparatedPaths input = []) := by
  constructor
  · intro e he
    rw [ParseCommaSeparatedPaths] at he
    split at he
    · simp at he
    · rw [List.mem_filter] at he
      obtain ⟨hmem, hne⟩ := he
      rw [List.mem_map] at hmem
      obtain ⟨seg, -, hseg⟩ := hmem
      subst hseg
      refine ⟨?_, ?_, ?_⟩
      · intro h0
        rw [h0] at hne
        simp at hne
      · intro c hc; exact trimSpace_head hc
      · intro c hc; exact trimSpace_getLast hc
  · intro h
    rw [ParseCommaSeparatedPaths, if_pos (trimSpace_eq_nil h)]

/-- Concrete instantiation of claim C10: parsing " ab , , " yields the
single trimmed entry "ab", and an all-blank input yields nothing. -/
theorem claim_C10_witness :
    ("ab".data ≠ [] ∧
      (∀ c, "ab".data.head? = some c → isSpaceChar c = false) ∧
      (∀ c, "ab".data.getLast? = some c → isSpaceChar c = false)) ∧
    ParseCommaSeparatedPaths "  ".data = [] :=
  ⟨(claim_C10_parse_paths " ab , , ".data).1 "ab".data (by decide),
   (claim_C10_parse_paths "  ".data).2 (by decide)⟩

/-- Claim C9 (amended): if the certificate has been persisted and share
writing then fails partway, the returned error names exactly the first
failing destination; shares are written in list order, so the destinations
before the failing one hold their base64 share and the failing one and all
later ones are untouched.  The error itself does not enumerate the written
or unwritten destinations. -/
theorem claim_C9_partial_share_write {π : Type} [DecidableEq π]
    (marshal : Nat → Option (List Nat)) (rand : Nat → Nat → GF) (privKey : Nat)
    (n t : Int) (sharePaths : List π) (fs : FS π)
    (keyBytes : List Nat) (shares : List (List Nat))
    (hm : marshal privKey = some keyBytes)
    (hs : shamirSplit keyBytes n.toNat t.toNat rand = .ok shares)
    (hn : (sharePaths.length : Int) = n)
    (hnd : sharePaths.Nodup)
    (i : Nat) (hi : i < sharePaths.length)
    (hbefore : ∀ j (hj : j < sharePaths.length), j < i →
      fs.failing (sharePaths.get ⟨j, hj⟩) = false)
    (hfail : fs.failing (sharePaths.get ⟨i, hi⟩) = true) :
    (SplitKeyAndWriteShares marshal rand privKey n t sharePaths fs).1
        = .error (.writeShareFailed (sharePaths.get ⟨i, hi⟩)) ∧
    errPaths (UErr.writeShareFailed (sharePaths.get ⟨i, hi⟩))
        = [sharePaths.get ⟨i, hi⟩] ∧
    (∀ j (hj : j < sharePaths.length), j < i →
      (SplitKeyAndWriteShares marshal rand privKey n t sharePaths fs).2.1.files
          (sharePaths.get ⟨j, hj⟩)
        = some (b64Encode (shares.getD j []))) ∧
    (∀ j (hj : j < sharePaths.length), i ≤ j →
      (SplitKeyAndWriteShares marshal rand privKey n t sharePaths fs).2.1.files
          (sharePaths.get ⟨j, hj⟩)
        = fs.files (sharePaths.get ⟨j, hj⟩)) := by
  have hsl : shares.length = sharePaths.length := by
    rw [shamirSplit] at hs
    split at hs
    · injection hs with h1
      rw [← h1]
      simp
      omega
    · exact absurd hs (by simp)
  have hsw : SplitKeyAndWriteShares marshal rand privKey n t sharePaths fs
      = writeSharesLoop fs (sharePaths.zip (shares.map b64Encode)) := by
    rw [SplitKeyAndWriteShares, if_neg (by simp [hn]), hm]
    show (match shamirSplit keyBytes n.toNat t.toNat rand with
        | .error e => ((.error (.splitFailed e) : Except (UErr π) Unit), fs,
            ([] : List (Event π)))
        | .ok shares => writeSharesLoop fs (sharePaths.zip (shares.map b64Encode)))
      = writeSharesLoop fs (sharePaths.zip (shares.map b64Encode))
    rw [hs]
  have hprs : (sharePaths.zip (shares.map b64Encode)).length = sharePaths.length := by
    rw [List.length_zip, List.length_map, hsl]
    exact min_self _
  have hget : ∀ (j : Nat) (hj : j < (sharePaths.zip (shares.map b64Encode)).length),
      (sharePaths.zip (shares.map b64Encode)).get ⟨j, hj⟩
        = (sharePaths.get ⟨j, hprs ▸ hj⟩, b64Encode (shares.getD j [])) := by
    intro j hj
    have hj2 : j < shares.length := by rw [hsl]; exact hprs ▸ hj
    simp only [List.get_eq_getElem, List.getElem_zip, List.getElem_map]
    rw [List.getD_eq_getElem shares [] hj2]
  have hmap : (sharePaths.zip (shares.map b64Encode)).map Prod.fst = sharePaths :=
    List.map_fst_zip _ _ (by rw [List.length_map, hsl])
  have hloop := writeSharesLoop_fail (sharePaths.zip (shares.map b64Encode)) fs i
    (hprs.symm ▸ hi)
    (by rw [hmap]; exact hnd)
    (by
      intro j hj hji
      rw [hget j hj]
      exact hbefore j (hprs ▸ hj) hji)
    (by rw [hget i (hprs.symm ▸ hi)]; exact hfail)
  refine ⟨?_, rfl, ?_, ?_⟩
  · rw [hsw, hloop.1, hget i (hprs.symm ▸ hi)]
  · intro j hj hji
    have h2 := hloop.2.1 j (hprs.symm ▸ hj) hji
    rw [hget j (hprs.symm ▸ hj)] at h2
    rw [hsw]
    exact h2
  · intro j hj hji
    have h2 := hloop.2.2 j (hprs.symm ▸ hj) hji
    rw [hget j (hprs.symm ▸ hj)] at h2
    rw [hsw]
    exact h2

/-- Claim C9 counterexample: destinations [0, 1, 2] (paths are numbers),
the write to 1 fails.  Share writing stops there: destination 0 is written,
destination 2 is not, yet the returned error mentions only the path 1; the
written destination 0 and the unwritten destination 2 appear nowhere in it,
so the error does not report which destinations were written and which
were not. -/
theorem claim_C9_counterexample :
    (SplitKeyAndWriteShares (fun _ => some [7]) (fun _ _ => 0) 0 3 2 [0, 1, 2]
        ⟨fun _ => none, fun p => p == 1⟩).1
      = .error (.writeShareFailed (1 : Nat)) ∧
    (SplitKeyAndWriteShares (fun _ => some [7]) (fun _ _ => 0) 0 3 2 [0, 1, 2]
        ⟨fun _ => none, fun p => p == 1⟩).2.1.files 0 ≠ none ∧
    (SplitKeyAndWriteShares (fun _ => some [7]) (fun _ _ => 0) 0 3 2 [0, 1, 2]
        ⟨fun _ => none, fun p => p == 1⟩).2.1.files 2 = none ∧
    errPaths (UErr.writeShareFailed (1 : Nat)) = [1] ∧
    (0 : Nat) ∉ errPaths (UErr.writeShareFailed (1 : Nat)) ∧
    (2 : Nat) ∉ errPaths (UErr.writeShareFailed (1 : Nat)) := by decide

/-- Concrete instantiation of the amended claim C9. -/
theorem claim_C9_witness :
    (SplitKeyAndWriteShares (fun _ => some [7]) (fun _ _ => 0) 0 3 2
        ([5, 6, 7] : List Nat) ⟨fun _ => none, fun p => p == 6⟩).1
      = .error (.writeShareFailed (([5, 6, 7] : List Nat).get ⟨1, by norm_num⟩)) :=
  (claim_C9_partial_share_write (fun _ => some [7]) (fun _ _ => 0) 0 3 2 [5, 6, 7]
    ⟨fun _ => none, fun p => p == 6⟩ [7] [[1, 7], [2, 7], [3, 7]] rfl (by decide)
    (by decide) (by decide) 1 (by norm_num) (by decide) (by decide)).1

/-- Claim C6: for every certificate issued with a requested validity of d
days, NotBefore equals the issuance time and NotAfter equals NotBefore plus
exactly d times 24 hours; in particular, for d = 365 the difference
NotAfter minus NotBefore is exactly 365 times 24 hours. -/
theorem claim_C6_validity_window (subject : Subject) (now : Int) (d : Int)
    (isCA : Bool) (ku : Nat) (serial : Nat) :
    (generateTemplate subject now d isCA ku serial).notBefore = now ∧
    (generateTemplate subject now d isCA ku serial).notAfter
      - (generateTemplate subject now d isCA ku serial).notBefore = d * day ∧
    (generateTemplate subject now 365 isCA ku serial).notAfter
      - (generateTemplate subject now 365 isCA ku serial).notBefore = 365 * day := by
  refine ⟨?_, ?_, ?_⟩ <;> cases isCA <;> simp [generateTemplate] <;> ring

/-- Claim C7: every certificate template generated with IsCA = true carries
key usage equal to the caller-supplied base bits or-ed with the
certificate-signing bit (bit 5, value 32), so the certificate-signing bit
is always present in CA certificates regardless of the base bits. -/
theorem claim_C7_ca_keyusage (subject : Subject) (now d : Int) (ku serial : Nat) :
    (generateTemplate subject now d true ku serial).keyUsage = ku ||| kuCertSign ∧
    Nat.testBit (generateTemplate subject now d true ku serial).keyUsage 5 = true := by
  constructor
  · simp [generateTemplate]
  · simp [generateTemplate, kuCertSign, Nat.testBit_or]
    exact Or.inr (by decide)

/-- Claim C5: Split fails with InvalidParameters whenever t = 0, or t > n,
or n > 255; and for every (n, t) with 1 ≤ t ≤ n ≤ 255 and a non-empty
secret, Split succeeds and returns exactly n shares. -/
theorem claim_C5_split_parameters (secret : List Nat) (n t : Nat)
    (rand : Nat → Nat → GF) :
    ((t = 0 ∨ n < t ∨ 255 < n) →
      shamirSplit secret n t rand = .error .invalidParameters) ∧
    (1 ≤ t → t ≤ n → n ≤ 255 → secret ≠ [] →
      ∃ shares, shamirSplit secret n t rand = .ok shares ∧ shares.length = n) := by
  constructor
  · intro h
    rw [shamirSplit, if_neg]
    omega
  · intro h1 h2 h3 h4
    rw [shamirSplit, if_pos ⟨h1, h2, h3, List.length_pos.mpr h4⟩]
    exact ⟨_, rfl, by simp⟩

/-- Concrete instantiation of claim C5: splitting the one-byte secret 7 with
(n, t) = (3, 0) is rejected, and with (3, 2) succeeds with 3 shares. -/
theorem claim_C5_witness :
    shamirSplit [7] 3 0 (fun _ _ => 0) = .error .invalidParameters ∧
    ∃ shares, shamirSplit [7] 3 2 (fun _ _ => 0) = .ok shares ∧ shares.length = 3 :=
  ⟨(claim_C5_split_parameters [7] 3 0 (fun _ _ => 0)).1 (Or.inl rfl),
   (claim_C5_split_parameters [7] 3 2 (fun _ _ => 0)).2 (by norm_num) (by norm_num)
     (by norm_num) (by simp)⟩

/-- Claim C2 (amended): a destination share-path count different from n is
rejected with ShareTargetMismatch before key generation only by the
Issue-Root front-ends; the Issue-Subordinate front-ends (CLI and GUI) run
the mismatch check only after the subordinate key pair has been generated
and the certificate written, so on every subordinate execution that fails
with ShareTargetMismatch a key-generation event has already happened.
(Issue-Leaf does not split its key and has no such check.) -/
theorem claim_C2_mismatch_check_order :
    (∀ (env : Env) (fs : FS SPath) (f : RootFlags),
      ¬f.cn = [] → ¬f.pemOut = [] → ¬f.sharesOut = [] →
      ¬ParseCommaSeparatedPaths f.sharesOut = [] →
      f.n ≠ ((ParseCommaSeparatedPaths f.sharesOut).length : Int) →
      createRootCmd env fs f = (.error .shareTargetMismatch, fs, [])) ∧
    (∀ (env : Env) (fs : FS SPath) (i : RootTabInputs) (d nv tv : Int),
      atoi i.days = some d → atoi i.n = some nv → atoi i.t = some tv →
      ¬i.pemOut = [] → ((splitOnComma (trimSpace i.sharesOut)).length : Int) ≠ nv →
      createRootTab env fs i = (.error .shareTargetMismatch, fs, [])) ∧
    (∀ (env : Env) (fs : FS SPath) (f : SubCAFlags),
      (createSubCACmd env fs f).1 = .error .shareTargetMismatch →
      Event.keyGenerated env.newKey ∈ (createSubCACmd env fs f).2.2) ∧
    (∀ (env : Env) (fs : FS SPath) (i : SubCATabInputs),
      (createSubCATab env fs i).1 = .error .shareTargetMismatch →
      Event.keyGenerated env.newKey ∈ (createSubCATab env fs i).2.2) :=
  ⟨createRootCmd_mismatch_early, createRootTab_mismatch_early,
   createSubCACmd_mismatch_late, createSubCATab_mismatch_late⟩

/-- Claim C2 counterexample: a create-subca invocation (CLI and GUI tab)
whose destination share-path count (1) differs from n = 3 fails with
ShareTargetMismatch, yet the key-generation event is in its trace: private
key material was created on this execution path. -/
theorem claim_C2_counterexample :
    (createSubCACmd env0 fs0 subf0).1 = .error .shareTargetMismatch ∧
    Event.keyGenerated env0.newKey ∈ (createSubCACmd env0 fs0 subf0).2.2 ∧
    (createSubCATab env0 fs0 subtab0).1 = .error .shareTargetMismatch ∧
    Event.keyGenerated env0.newKey ∈ (createSubCATab env0 fs0 subtab0).2.2 :=
  ⟨by decide, by decide, by decide, by decide⟩

/-- Concrete instantiation of the amended claim C2. -/
theorem claim_C2_witness :
    createRootCmd env0 fs0 rootf0 = (.error .shareTargetMismatch, fs0, []) ∧
    createRootTab env0 fs0 rt1 = (.error .shareTargetMismatch, fs0, []) ∧
    Event.keyGenerated env0.newKey ∈ (createSubCACmd env0 fs0 subf0).2.2 ∧
    Event.keyGenerated env0.newKey ∈ (createSubCATab env0 fs0 subtab0).2.2 :=
  ⟨claim_C2_mismatch_check_order.1 env0 fs0 rootf0 (by decide) (by decide) (by decide)
      (by decide) (by decide),
   claim_C2_mismatch_check_order.2.1 env0 fs0 rt1 1 3 1 (by decide) (by decide) (by decide)
      (by decide) (by decide),
   claim_C2_mismatch_check_order.2.2.1 env0 fs0 subf0 (by decide),
   claim_C2_mismatch_check_order.2.2.2 env0 fs0 subtab0 (by decide)⟩

/-- Claim C3 (amended): every subordinate CA certificate produced by
Issue-Subordinate (CLI or GUI) has IsCA = true, and its path-length
constraint is the constant 1 with MaxPathLenZero = false — it is NOT
derived from the parent certificate's path-length constraint. -/
theorem claim_C3_subca_pathlen :
    (∀ (env : Env) (fs : FS SPath) (f : SubCAFlags) (c : CertTemplate),
      Event.certCreated c ∈ (createSubCACmd env fs f).2.2 →
      c.isCA = true ∧ c.maxPathLen = 1 ∧ c.maxPathLenZero = false) ∧
    (∀ (env : Env) (fs : FS SPath) (i : SubCATabInputs) (c : CertTemplate),
      Event.certCreated c ∈ (createSubCATab env fs i).2.2 →
      c.isCA = true ∧ c.maxPathLen = 1 ∧ c.maxPathLenZero = false) :=
  ⟨createSubCACmd_cert_fields, createSubCATab_cert_fields⟩

/-- Claim C3 counterexample: the parsed parent certificate has path-length
constraint 1, so a child respecting the claim would carry 1 - 1 = 0; the
subordinate certificate actually created carries 1. -/
theorem claim_C3_counterexample :
    ParseCertificateFromFile env0 fs0 subf0.parentPem = .ok ct0 ∧
    Event.certCreated subTmpl0 ∈ (createSubCACmd env0 fs0 subf0).2.2 ∧
    subTmpl0.maxPathLen ≠ ct0.maxPathLen - 1 :=
  ⟨by decide, by decide, by decide⟩

/-- Concrete instantiation of the amended claim C3. -/
theorem claim_C3_witness :
    subTmpl0.isCA = true ∧ subTmpl0.maxPathLen = 1 ∧ subTmpl0.maxPathLenZero = false :=
  claim_C3_subca_pathlen.1 env0 fs0 subf0 subTmpl0 (by decide)

/-- Claim C4 (amended): invoked with an empty common name, the three CLI
commands fail with SubjectInvalid and produce nothing; the three GUI tabs
never report SubjectInvalid — the GUI subject builder performs no
common-name validation at all. -/
theorem claim_C4_empty_cn :
    (∀ (env : Env) (fs : FS SPath) (f : RootFlags), f.cn = [] →
      createRootCmd env fs f = (.error .subjectInvalid, fs, [])) ∧
    (∀ (env : Env) (fs : FS SPath) (f : SubCAFlags), f.cn = [] →
      createSubCACmd env fs f = (.error .subjectInvalid, fs, [])) ∧
    (∀ (env : Env) (fs : FS SPath) (f : SignFlags), f.cn = [] →
      signCmd env fs f = (.error .subjectInvalid, fs, [])) ∧
    (∀ (env : Env) (fs : FS SPath) (i : RootTabInputs),
      (createRootTab env fs i).1 ≠ .error .subjectInvalid) ∧
    (∀ (env : Env) (fs : FS SPath) (i : SubCATabInputs),
      (createSubCATab env fs i).1 ≠ .error .subjectInvalid) ∧
    (∀ (env : Env) (fs : FS SPath) (i : SignTabInputs),
      (signTab env fs i).1 ≠ .error .subjectInvalid) :=
  ⟨createRootCmd_empty_cn, createSubCACmd_empty_cn, signCmd_empty_cn,
   createRootTab_no_subjectInvalid, createSubCATab_no_subjectInvalid,
   signTab_no_subjectInvalid⟩

/-- Claim C4 counterexample: a GUI Root CA creation with an empty common
name succeeds and produces a certificate, instead of failing with
SubjectInvalid. -/
theorem claim_C4_counterexample :
    rt0.cn = [] ∧ (createRootTab env0 fs0 rt0).1 = .ok () ∧
    Event.certCreated rootTmpl0 ∈ (createRootTab env0 fs0 rt0).2.2 :=
  ⟨rfl, by decide, by decide⟩

/-- Concrete instantiation of the amended claim C4. -/
theorem claim_C4_witness :
    createRootCmd env0 fs0 rootf1 = (.error .subjectInvalid, fs0, []) ∧
    createSubCACmd env0 fs0 subf1 = (.error .subjectInvalid, fs0, []) ∧
    signCmd env0 fs0 signf2 = (.error .subjectInvalid, fs0, []) ∧
    (createRootTab env0 fs0 rt0).1 ≠ .error .subjectInvalid :=
  ⟨claim_C4_empty_cn.1 env0 fs0 rootf1 (by decide),
   claim_C4_empty_cn.2.1 env0 fs0 subf1 (by decide),
   claim_C4_empty_cn.2.2.1 env0 fs0 signf2 (by decide),
   claim_C4_empty_cn.2.2.2.1 env0 fs0 rt0⟩

/-- Claim C8: on Issue-Leaf (CLI sign and GUI Sign Leaf tab), when the key
output path is empty every file written is the certificate (nothing
containing the leaf key is persisted), and when the invocation succeeds
with a non-empty key output path the leaf private key PEM is written to
that path. -/
theorem claim_C8_leaf_key_export :
    (∀ (env : Env) (fs : FS SPath) (f : SignFlags), f.keyOut = [] →
      ∀ (p : SPath) (c : List Nat),
        Event.fileWritten p c ∈ (signCmd env fs f).2.2 → p = f.certOut) ∧
    (∀ (env : Env) (fs : FS SPath) (f : SignFlags),
      (signCmd env fs f).1 = Except.ok () → f.keyOut ≠ [] →
      Event.fileWritten f.keyOut (env.encodeKeyPEM env.newKey)
        ∈ (signCmd env fs f).2.2) ∧
    (∀ (env : Env) (fs : FS SPath) (i : SignTabInputs), i.keyOut = [] →
      ∀ (p : SPath) (c : List Nat),
        Event.fileWritten p c ∈ (signTab env fs i).2.2 → p = i.certOut) ∧
    (∀ (env : Env) (fs : FS SPath) (i : SignTabInputs),
      (signTab env fs i).1 = Except.ok () → i.keyOut ≠ [] →
      Event.fileWritten i.keyOut (env.encodeKeyPEM env.newKey)
        ∈ (signTab env fs i).2.2) :=
  ⟨signCmd_no_key_write, signCmd_key_written, signTab_no_key_write, signTab_key_written⟩

/-- Concrete instantiation of claim C8. -/
theorem claim_C8_witness :
    (['o'] : SPath) = signf1.certOut ∧
    Event.fileWritten signf0.keyOut (env0.encodeKeyPEM env0.newKey)
      ∈ (signCmd env0 fs0 signf0).2.2 ∧
    (['o'] : SPath) = st1.certOut ∧
    Event.fileWritten st0.keyOut (env0.encodeKeyPEM env0.newKey)
      ∈ (signTab env0 fs0 st0).2.2 :=
  ⟨claim_C8_leaf_key_export.1 env0 fs0 signf1 (by decide) ['o'] [1] (by decide),
   claim_C8_leaf_key_export.2.1 env0 fs0 signf0 (by decide) (by decide),
   claim_C8_leaf_key_export.2.2.1 env0 fs0 st1 (by decide) ['o'] [1] (by decide),
   claim_C8_leaf_key_export.2.2.2 env0 fs0 st0 (by decide) (by decide)⟩

set_option maxHeartbeats 1600000 in
/-- Claim C1: for every secret of length at least 1 and every valid pair
(n, t), after SplitKeyAndWriteShares succeeds in base64-encoding and
writing its n shares to n distinct paths, CombineSharesFromFiles applied
to any sub-collection of t of those share files returns exactly the
original marshalled key bytes. -/
theorem claim_C1_split_combine_roundtrip {π : Type} [DecidableEq π]
    (marshal : Nat → Option (List Nat)) (rand : Nat → Nat → GF) (privKey : Nat)
    (keyBytes : List Nat) (n t : Int) (sharePaths sub : List π)
    (fs fs' : FS π) (ev : List (Event π))
    (hbytes : ∀ b ∈ keyBytes, b < 256)
    (hm : marshal privKey = some keyBytes)
    (hnodup : sharePaths.Nodup)
    (hw : SplitKeyAndWriteShares marshal rand privKey n t sharePaths fs
        = (.ok (), fs', ev))
    (hsub : sub ⊆ sharePaths) (hsubnd : sub.Nodup)
    (hlent : (sub.length : Int) = t) :
    CombineSharesFromFiles fs' sub = .ok keyBytes := by
  obtain ⟨hn, keyBytes2, shares, hm2, hs, hloop⟩ := SplitKeyAndWriteShares_ok hw
  rw [hm, Option.some.injEq] at hm2
  subst hm2
  obtain ⟨⟨ht1, ht2, ht3, ht4⟩, hsheq⟩ := shamirSplit_ok hs
  have hnlen : sharePaths.length = n.toNat := by omega
  have hshlen : shares.length = n.toNat := by rw [hsheq]; simp
  have hzipfst : (sharePaths.zip (shares.map b64Encode)).map Prod.fst = sharePaths :=
    List.map_fst_zip _ _ (by rw [List.length_map]; omega)
  have hziplen : (sharePaths.zip (shares.map b64Encode)).length = sharePaths.length := by
    rw [List.length_zip, List.length_map]
    omega
  have hfiles : ∀ p ∈ sub, fs'.files p
      = some (b64Encode (splitShare keyBytes t.toNat rand (sharePaths.indexOf p))) := by
    intro p hp
    have hpmem : p ∈ sharePaths := hsub hp
    have hidx : sharePaths.indexOf p < sharePaths.length :=
      List.indexOf_lt_length.mpr hpmem
    have hidx2 : sharePaths.indexOf p < (sharePaths.zip (shares.map b64Encode)).length := by
      omega
    have hpd : (sharePaths.zip (shares.map b64Encode))[sharePaths.indexOf p]
        = (p, b64Encode (splitShare keyBytes t.toNat rand (sharePaths.indexOf p))) := by
      rw [List.getElem_zip]
      congr 1
      · exact List.getElem_indexOf hidx
      · rw [List.getElem_map]
        congr 1
        rw [List.getElem_of_eq hsheq, List.getElem_map, List.getElem_range]
    have := writeSharesLoop_ok_files (sharePaths.zip (shares.map b64Encode)) fs fs' ev
      (by rw [hzipfst]; exact hnodup) hloop
      ((sharePaths.zip (shares.map b64Encode))[sharePaths.indexOf p])
      (List.getElem_mem hidx2)
    rw [hpd] at this
    exact this
  have hsplitbytes : ∀ j, j < n.toNat →
      ∀ b ∈ splitShare keyBytes t.toNat rand j, b < 256 := by
    intro j hj b hb
    rw [splitShare] at hb
    rcases List.mem_cons.mp hb with hb | hb
    · omega
    · rw [List.mem_map] at hb
      obtain ⟨i, -, hi⟩ := hb
      rw [← hi]
      exact (evalPoly _ _).val.isLt
  have hread : readShares fs' sub
      = .ok (sub.map (fun p => splitShare keyBytes t.toNat rand (sharePaths.indexOf p))) := by
    apply readShares_of_files
    intro p hp
    refine ⟨hfiles p hp, ?_⟩
    apply hsplitbytes
    have := List.indexOf_lt_length.mpr (hsub hp)
    omega
  have hmapmap : sub.map (fun p => splitShare keyBytes t.toNat rand (sharePaths.indexOf p))
      = (sub.map (fun p => sharePaths.indexOf p)).map (splitShare keyBytes t.toNat rand) := by
    rw [List.map_map]
    rfl
  have hcomb : shamirCombine
      (sub.map (fun p => splitShare keyBytes t.toNat rand (sharePaths.indexOf p)))
      = .ok keyBytes := by
    rw [hmapmap]
    apply shamirCombine_split_select keyBytes n.toNat t.toNat rand hbytes ht1 ht3 ht4
    · intro i hi
      rw [List.mem_map] at hi
      obtain ⟨p, hp, hip⟩ := hi
      rw [← hip, ← hnlen]
      exact List.indexOf_lt_length.mpr (hsub hp)
    · apply List.Nodup.map_on ?_ hsubnd
      intro x hx y hy hxy
      have hxm := hsub hx
      have hym := hsub hy
      have h1 : sharePaths.get ⟨sharePaths.indexOf x, List.indexOf_lt_length.mpr hxm⟩
          = x := by
        rw [List.get_eq_getElem]
        exact List.getElem_indexOf _
      have h2 : sharePaths.get ⟨sharePaths.indexOf y, List.indexOf_lt_length.mpr hym⟩
          = y := by
        rw [List.get_eq_getElem]
        exact List.getElem_indexOf _
      rw [← h1, ← h2]
      exact congrArg sharePaths.get (Fin.ext hxy)
    · rw [List.length_map]
      omega
  rw [CombineSharesFromFiles, hread]
  dsimp only
  rw [hcomb]

/-- Concrete instantiation of claim C1: the one-byte secret [9] split into
n = 3 shares with threshold t = 2 at paths 0, 1, 2; combining the share
files at the two paths 0 and 2 returns [9]. -/
theorem claim_C1_witness :
    CombineSharesFromFiles
      (SplitKeyAndWriteShares (fun _ => some [9]) (fun _ _ => 0) 0 3 2
        ([0, 1, 2] : List Nat) ⟨fun _ => none, fun _ => false⟩).2.1
      [0, 2] = .ok [9] :=
  claim_C1_split_combine_roundtrip (fun _ => some [9]) (fun _ _ => 0) 0 [9] 3 2
    [0, 1, 2] [0, 2] ⟨fun _ => none, fun _ => false⟩
    (SplitKeyAndWriteShares (fun _ => some [9]) (fun _ _ => 0) 0 3 2
      ([0, 1, 2] : List Nat) ⟨fun _ => none, fun _ => false⟩).2.1
    (SplitKeyAndWriteShares (fun _ => some [9]) (fun _ _ => 0) 0 3 2
      ([0, 1, 2] : List Nat) ⟨fun _ => none, fun _ => false⟩).2.2
    (by decide) rfl (by decide)
    (by
      rw [show (Except.ok () : Except (UErr Nat) Unit)
          = (SplitKeyAndWriteShares (fun _ => some [9]) (fun _ _ => 0) 0 3 2
              ([0, 1, 2] : List Nat) ⟨fun _ => none, fun _ => false⟩).1 from by decide])
    (by decide) (by decide) (by decide)

end GoSeC

